import Mathlib

/-!
Verification of the dspy-refrag context-selection engine.

This file shallowly embeds the core of the repository:
* `sensor_advanced.py` — the `AdvancedSensor` selection strategies
  (similarity, MMR, uncertainty sampling, adaptive threshold, ensemble),
* `sensor.py` — the simple `Sensor` policy,
* `refrag.py` — the `REFRAGModule.forward` pipeline,
* `fragment.py` and the `serializer_*.py` codecs.

Score arithmetic over Python floats is modelled with `ℚ` where the code
only adds/multiplies/compares, and with `ℝ` where the code calls
`np.exp` / `np.sqrt` (softmax, vector normalization).  The global numpy
random generator consumed by `np.random.choice` is modelled as a stream
`ℕ → ℚ` of uniform draws in `[0,1)`, threaded explicitly through the
functions that the Python code lets read the ambient generator state.
-/

namespace DspyRefrag

/-- `np.dot` on equal-length 1-D arrays: sum of pointwise products. -/
def dot (a b : List ℚ) : ℚ :=
  (List.zipWith (fun x y => x * y) a b).sum

/-- `np.max` of a nonempty array (0 junk value on the empty list,
which the code never reaches: `select` returns early on `[]`). -/
def listMaxQ : List ℚ → ℚ
  | [] => 0
  | x :: xs => xs.foldl max x

/-- `np.argmax`: index of the first occurrence of the maximum. -/
def argmaxList : List ℚ → ℕ
  | [] => 0
  | x :: xs => if xs = [] then 0 else if listMaxQ xs ≤ x then 0 else 1 + argmaxList xs

/-- The comparison used to model `np.argsort` on a score array `l`:
ascending by score, ties broken by ascending position (numpy's argsort
is observably stable here: ties keep index order).  Total, transitive
and antisymmetric, so the sort result is uniquely determined. -/
def argsortLe (l : List ℚ) (i j : ℕ) : Prop :=
  l.getD i 0 < l.getD j 0 ∨ (l.getD i 0 = l.getD j 0 ∧ i ≤ j)

instance (l : List ℚ) : DecidableRel (argsortLe l) := fun i j => by
  unfold argsortLe; infer_instance

/-- `np.argsort(l)`: the indices `0..len l` sorted ascending by score
(stable on ties). -/
def np_argsort (l : List ℚ) : List ℕ :=
  List.insertionSort (argsortLe l) (List.range l.length)

/-- `np.argsort(scores)[::-1][:budget]` — the top-`budget` indices by
descending score (ties: the *higher* index first, because the ascending
stable sort is reversed). -/
def topByScore (scores : List ℚ) (budget : ℕ) : List ℕ :=
  ((np_argsort scores).reverse).take budget

/-- `valid_indices[np.argsort(scores[valid_indices])[::-1][:budget]]`:
rank a pre-filtered index list by score and keep the top `budget`.
Shared shape of `_select_similarity` (min-score branch) and
`_select_adaptive` (main branch). -/
def rankWithin (valid : List ℕ) (scores : List ℚ) (budget : ℕ) : List ℕ :=
  (topByScore (valid.map (fun i => scores.getD i 0)) budget).map
    (fun p => valid.getD p 0)

/-- `AdvancedSensor._compute_similarities`. -/
def computeSimilarities (queryVec : List ℚ) (chunkVecs : List (List ℚ)) : List ℚ :=
  chunkVecs.map (fun cv => dot queryVec cv)

/-- `AdvancedSensor._select_similarity`. -/
def selectSimilarity (minScore : Option ℚ) (queryVec : List ℚ)
    (chunkVecs : List (List ℚ)) (budget : ℕ) : List ℕ :=
  let scores := computeSimilarities queryVec chunkVecs
  match minScore with
  | some m =>
      let valid := (List.range chunkVecs.length).filter (fun i => m ≤ scores.getD i 0)
      if valid = [] then [] else rankWithin valid scores budget
  | none => topByScore scores budget

/-- `np.percentile(l, q*100)` with numpy's default linear interpolation:
with `a` the ascending sort of `l` (length `n`), the virtual rank is
`q * (n-1) = lo + g`, and the result `a lo + g * (a (lo+1) - a lo)`. -/
def np_percentile (l : List ℚ) (q : ℚ) : ℚ :=
  let a := List.insertionSort (fun x y : ℚ => x ≤ y) l
  let rank : ℚ := q * ((l.length : ℚ) - 1)
  let lo : ℕ := ⌊rank⌋.toNat
  let g : ℚ := rank - (lo : ℚ)
  a.getD lo 0 + g * (a.getD (lo + 1) (a.getD lo 0) - a.getD lo 0)

/-- `AdvancedSensor._select_adaptive`. -/
def selectAdaptive (adaptivePercentile : ℚ) (queryVec : List ℚ)
    (chunkVecs : List (List ℚ)) (budget : ℕ) : List ℕ :=
  let similarities := computeSimilarities queryVec chunkVecs
  let threshold := np_percentile similarities adaptivePercentile
  let valid := (List.range chunkVecs.length).filter
    (fun i => threshold ≤ similarities.getD i 0)
  if valid = [] then [argmaxList similarities]
  else rankWithin valid similarities budget

/-- `max(pairwise[idx, sel] for sel in selected)` — redundancy of a
candidate w.r.t. the already selected chunks (`selected` nonempty at
each use site). -/
def redundancy (pw : ℕ → ℕ → ℚ) (idx : ℕ) : List ℕ → ℚ
  | [] => 0
  | s :: ss => ss.foldl (fun acc j => max acc (pw idx j)) (pw idx s)

/-- The loop body of `AdvancedSensor._select_mmr`: `budget` iterations,
picking by pure similarity first, then by the MMR score
`λ·relevance − (1−λ)·redundancy`; `remaining.remove(best)` keeps
ascending index order. -/
def mmrGo (s : List ℚ) (pw : ℕ → ℕ → ℚ) (lam : ℚ) :
    ℕ → List ℕ → List ℕ → List ℕ
  | 0, _, _ => []
  | _ + 1, _, [] => []
  | b + 1, sel, r :: rs =>
      let rem := r :: rs
      let best :=
        match sel with
        | [] => rem.getD (argmaxList (rem.map (fun i => s.getD i 0))) 0
        | _ :: _ =>
            rem.getD (argmaxList (rem.map
              (fun i => lam * s.getD i 0 - (1 - lam) * redundancy pw i sel))) 0
      best :: mmrGo s pw lam b (sel ++ [best]) (rem.erase best)

/-- `AdvancedSensor._select_mmr`. -/
def selectMMR (diversityLambda : ℚ) (queryVec : List ℚ)
    (chunkVecs : List (List ℚ)) (budget : ℕ) : List ℕ :=
  mmrGo (computeSimilarities queryVec chunkVecs)
    (fun i j => dot (chunkVecs.getD i []) (chunkVecs.getD j []))
    diversityLambda budget [] (List.range chunkVecs.length)

/-! ### Uncertainty sampling

`_select_uncertainty` computes a temperature-scaled softmax over the
similarity scores and calls `np.random.choice(n, size=budget,
replace=False, p=probs)` on the *global* numpy generator.  `np.exp` and
real division force this corner of the model into `ℝ`.  The generator is
modelled as a stream `rng : ℕ → ℚ` of the uniform `[0,1)` draws that
`random_sample` would produce, consumed left to right. -/

/-- `np.max` over `ℝ` (junk 0 on `[]`, unreachable: `select` returns
early on an empty candidate list). -/
def listMaxR : List ℝ → ℝ
  | [] => 0
  | x :: xs => xs.foldl max x

/-- The temperature-scaled softmax of `_select_uncertainty`:
`exp((s/T) - max(s/T))` renormalized to sum 1. -/
noncomputable def softmax (temperature : ℚ) (scores : List ℚ) : List ℝ :=
  let scaled : List ℝ := scores.map (fun s : ℚ => ((s : ℝ) / (temperature : ℝ) : ℝ))
  let exps := scaled.map (fun x => Real.exp (x - listMaxR scaled))
  exps.map (fun e => e / exps.sum)

/-- `np.cumsum` (with an accumulator, as a running partial sum). -/
def cumsumGo (acc : ℝ) : List ℝ → List ℝ
  | [] => []
  | x :: xs => (acc + x) :: cumsumGo (acc + x) xs

/-- `np.cumsum`. -/
def cumsum (l : List ℝ) : List ℝ := cumsumGo 0 l

/-- `a.searchsorted(v, side='right')` on a sorted array: the number of
entries `≤ v`. -/
noncomputable def searchsortedRight (a : List ℝ) (v : ℝ) : ℕ :=
  a.countP (fun c => decide (c ≤ v))

/-- `p[found] = 0`: zero out the probabilities of already-drawn indices
(described positionally). -/
def zeroAt (p : List ℝ) (found : List ℕ) : List ℝ :=
  (List.range p.length).map (fun i => if i ∈ found then (0 : ℝ) else p.getD i 0)

/-- `np.unique(new, return_index=True)` followed by sorting the first
occurrence indices: keep the first occurrence of each value, in draw
order. -/
def firstDedupGo (seen : List ℕ) : List ℕ → List ℕ
  | [] => []
  | x :: xs => if x ∈ seen then firstDedupGo seen xs else x :: firstDedupGo (x :: seen) xs

/-- First-occurrence deduplication of a batch of draws. -/
def firstDedup (l : List ℕ) : List ℕ := firstDedupGo [] l

/-- The `while n_uniq < size` loop of `np.random.choice` with
`replace=False` and probabilities `p`: draw `size - n_uniq` uniforms,
zero the probabilities of indices already found, renormalize the
cumulative distribution, map each uniform through `searchsorted`, dedup
the batch, and append.  Each round adds at least one index, so `size`
rounds of fuel suffice. -/
noncomputable def npChoiceLoop (p : List ℝ) (size : ℕ) (rng : ℕ → ℚ) :
    ℕ → ℕ → List ℕ → List ℕ
  | 0, _, found => found
  | fuel + 1, pos, found =>
      if found.length < size then
        let k := size - found.length
        let draws := (List.range k).map (fun j => ((rng (pos + j) : ℚ) : ℝ))
        let pz := zeroAt p found
        let cdf := cumsum pz
        let ncdf := cdf.map (fun c => c / cdf.getLastD 0)
        let uniq := firstDedup (draws.map (fun u => searchsortedRight ncdf u))
        npChoiceLoop p size rng fuel (pos + k) (found ++ uniq)
      else found

/-- `np.random.choice(len p, size=size, replace=False, p=p)` on a
generator whose pending uniform draws are the stream `rng`. -/
noncomputable def npChoiceNoReplace (p : List ℝ) (size : ℕ) (rng : ℕ → ℚ) : List ℕ :=
  npChoiceLoop p size rng size 0 []

/-- `AdvancedSensor._select_uncertainty`. -/
noncomputable def selectUncertainty (temperature : ℚ) (queryVec : List ℚ)
    (chunkVecs : List (List ℚ)) (budget : ℕ) (rng : ℕ → ℚ) : List ℕ :=
  npChoiceNoReplace (softmax temperature (computeSimilarities queryVec chunkVecs))
    budget rng

/-! ### Configuration, ensemble and the dispatcher -/

/-- `SelectionStrategy` (sensor_advanced.py). -/
inductive SelectionStrategy where
  | similarity
  | mmr
  | uncertainty
  | ensemble
  | adaptive
deriving DecidableEq, Repr

/-- `SelectionConfig` with the dataclass defaults. -/
structure SelectionConfig where
  strategy : SelectionStrategy := .similarity
  diversity_lambda : ℚ := 1/2
  temperature : ℚ := 1
  ensemble_weights : Option (List ℚ) := none
  adaptive_percentile : ℚ := 3/4
  min_score : Option ℚ := none
deriving DecidableEq

/-- The conditions checked by `AdvancedSensor._validate_config` (their
negation raises `ValueError`). -/
def validConfig (c : SelectionConfig) : Prop :=
  0 ≤ c.diversity_lambda ∧ c.diversity_lambda ≤ 1 ∧ 0 < c.temperature ∧
    0 ≤ c.adaptive_percentile ∧ c.adaptive_percentile ≤ 1

instance (c : SelectionConfig) : Decidable (validConfig c) := by
  unfold validConfig; infer_instance

/-- `AdvancedSensor` holds its validated config. -/
structure AdvancedSensor where
  config : SelectionConfig
deriving DecidableEq

/-- `AdvancedSensor.__init__`: `_validate_config` runs once at
construction and raises (models as `Except.error`) on the first invalid
parameter; a valid config is stored unchanged. -/
def AdvancedSensor.init (c : SelectionConfig) : Except String AdvancedSensor :=
  if c.diversity_lambda < 0 ∨ 1 < c.diversity_lambda then
    .error "diversity_lambda must be in [0, 1]"
  else if c.temperature ≤ 0 then
    .error "temperature must be positive"
  else if c.adaptive_percentile < 0 ∨ 1 < c.adaptive_percentile then
    .error "adaptive_percentile must be in [0, 1]"
  else .ok ⟨c⟩

/-- Dispatch of the four non-ensemble strategies (the `strategy_map`
minus `ENSEMBLE`; the ensemble case is handled by `selectEnsemble` and
never dispatches to itself). -/
noncomputable def dispatchNonEnsemble (c : SelectionConfig) (queryVec : List ℚ)
    (chunkVecs : List (List ℚ)) (budget : ℕ) (rng : ℕ → ℚ) : List ℕ :=
  match c.strategy with
  | .similarity => selectSimilarity c.min_score queryVec chunkVecs budget
  | .mmr => selectMMR c.diversity_lambda queryVec chunkVecs budget
  | .uncertainty => selectUncertainty c.temperature queryVec chunkVecs budget rng
  | .adaptive => selectAdaptive c.adaptive_percentile queryVec chunkVecs budget
  | .ensemble => []

/-- `_select_ensemble`'s inner call
`AdvancedSensor(SelectionConfig(strategy=strategy)).select(...)`:
a freshly defaulted config, the usual empty-input guard and
`budget = min(budget, len(chunk_vecs))` clamp of `select`. -/
noncomputable def subSelect (strat : SelectionStrategy) (queryVec : List ℚ)
    (chunkVecs : List (List ℚ)) (budget : ℕ) (rng : ℕ → ℚ) : List ℕ :=
  if chunkVecs = [] then []
  else dispatchNonEnsemble { strategy := strat } queryVec chunkVecs
    (min budget chunkVecs.length) rng

/-- `AdvancedSensor._select_ensemble`: run the fixed strategy subset at
`budget * 2`, accumulate inverse-rank-weighted votes
(`vote[idx] += weight * (len(selections) - rank)`), return the
top-`budget` indices by vote. -/
noncomputable def selectEnsemble (weights : Option (List ℚ)) (queryVec : List ℚ)
    (chunkVecs : List (List ℚ)) (budget : ℕ) (rng : ℕ → ℚ) : List ℕ :=
  let allSelections : List (List ℕ × ℚ) :=
    match weights with
    | none =>
        List.zip
          [subSelect .similarity queryVec chunkVecs (budget * 2) rng,
           subSelect .mmr queryVec chunkVecs (budget * 2) rng]
          [1/2, 1/2]
    | some ws =>
        List.zip
          [subSelect .similarity queryVec chunkVecs (budget * 2) rng,
           subSelect .mmr queryVec chunkVecs (budget * 2) rng,
           subSelect .uncertainty queryVec chunkVecs (budget * 2) rng]
          ws
  let votes := allSelections.foldl
    (fun vs sw =>
      sw.1.enum.foldl
        (fun vs' ri =>
          vs'.set ri.2 (vs'.getD ri.2 0 + sw.2 * ((sw.1.length : ℚ) - (ri.1 : ℚ))))
        vs)
    (List.replicate chunkVecs.length (0 : ℚ))
  topByScore votes budget

/-- `AdvancedSensor.select`: empty candidate list returns `[]`, the
budget is clamped to `min(budget, len(chunk_vecs))`, then the configured
strategy runs. -/
noncomputable def AdvancedSensor.select (c : SelectionConfig) (queryVec : List ℚ)
    (chunkVecs : List (List ℚ)) (budget : ℕ) (rng : ℕ → ℚ) : List ℕ :=
  if chunkVecs = [] then []
  else
    let b := min budget chunkVecs.length
    match c.strategy with
    | .ensemble => selectEnsemble c.ensemble_weights queryVec chunkVecs b rng
    | _ => dispatchNonEnsemble c queryVec chunkVecs b rng

/-! ### The simple Sensor (sensor.py) -/

/-- `Sensor` modes (the constructor asserts membership in this set). -/
inductive SensorMode where
  | heuristic
  | learned
deriving DecidableEq

/-- `Sensor` with its constructor defaults. -/
structure Sensor where
  mode : SensorMode := .heuristic
  threshold : Option ℚ := none
  learned_weights : Option (List ℚ) := none

/-- CPython's `sorted(..., reverse=True)` by a numeric key: stable
descending order (insertion sort is stable, so equal keys keep their
original relative order). -/
def pySortDescBy {α : Type} (key : α → ℚ) (l : List α) : List α :=
  List.insertionSort (fun a b => key b ≤ key a) l

/-- The heuristic branch of `Sensor.select`: dot-product scores,
optional threshold filter, stable descending sort, truncate to budget. -/
def heuristicSelect (threshold : Option ℚ) (queryVec : List ℚ)
    (chunkVecs : List (List ℚ)) (budget : ℕ) : List ℕ :=
  let scores := chunkVecs.map (fun cv => dot queryVec cv)
  match threshold with
  | some t =>
      let filtered := scores.enum.filter (fun p => t ≤ p.2)
      ((pySortDescBy (fun p => p.2) filtered).take budget).map (fun p => p.1)
  | none =>
      (pySortDescBy (fun i => scores.getD i 0) (List.range chunkVecs.length)).take budget

/-- The learned branch of `Sensor.select` when weights are present:
score by `dot(learned_weights, concat(query_vec, cv))`. -/
def learnedSelect (w : List ℚ) (queryVec : List ℚ)
    (chunkVecs : List (List ℚ)) (budget : ℕ) : List ℕ :=
  let scores := chunkVecs.map (fun cv => dot w (queryVec ++ cv))
  (pySortDescBy (fun i => scores.getD i 0) (List.range chunkVecs.length)).take budget

/-- `Sensor.select`, fuelled.  The `learned` branch with
`learned_weights = None` re-enters `self.select` with the *same*
`self`, so it consumes fuel without progress; `none` models the call
never returning (Python: unbounded recursion, `RecursionError`). -/
def Sensor.selectFuel : ℕ → Sensor → List ℚ → List (List ℚ) → ℕ → Option (List ℕ)
  | 0, _, _, _, _ => none
  | fuel + 1, s, queryVec, chunkVecs, budget =>
      match s.mode with
      | .heuristic => some (heuristicSelect s.threshold queryVec chunkVecs budget)
      | .learned =>
          match s.learned_weights with
          | none => Sensor.selectFuel fuel s queryVec chunkVecs budget
          | some w => some (learnedSelect w queryVec chunkVecs budget)

/-! ### The pipeline orchestrator (refrag.py) -/

/-- Python metadata values occurring in this pipeline: strings and the
booleans written by the `selected` annotation. -/
inductive Val where
  | str (s : String)
  | bool (b : Bool)
deriving DecidableEq

/-- `str(v)` as an f-string renders it. -/
def Val.render : Val → String
  | .str s => s
  | .bool b => if b then "True" else "False"

/-- A retrieved passage as `REFRAGModule.forward` consumes it
(`p.vector`, `p.metadata`); metadata is a Python dict modelled as an
association list in insertion order. -/
structure Passage where
  vector : List ℚ
  metadata : List (String × Val)
deriving DecidableEq

/-- `meta = dict(m); meta.setdefault("selected", flag)`: a fresh copy,
annotated only when the key is absent (a new dict key appends in
insertion order). -/
def annotate (m : List (String × Val)) (flag : Bool) : List (String × Val) :=
  if (m.lookup "selected").isSome then m else m ++ [("selected", Val.bool flag)]

/-- Step 3 of `forward`: one annotated metadata copy per passage, in
retrieval order (`i in selected_idxs` is list membership). -/
def forwardMeta (passages : List Passage) (selectedIdxs : List ℕ) :
    List (List (String × Val)) :=
  passages.enum.map (fun ip => annotate ip.2.metadata (selectedIdxs.contains ip.1))

/-- `f"Passage {i}: {p['text']} (selected: {p.get('selected', False)})"`.
(A missing `text` key raises `KeyError` in Python; the claims below only
concern passages whose metadata carries a `text` string, so the model
totalizes the lookup with `""`.) -/
def fmtPassageLine (i : ℕ) (m : List (String × Val)) : String :=
  "Passage " ++ toString i ++ ": " ++ ((m.lookup "text").getD (Val.str "")).render
    ++ " (selected: " ++ ((m.lookup "selected").getD (Val.bool false)).render ++ ")"

/-- Python's `"\n".join`. -/
def joinNL : List String → String
  | [] => ""
  | [x] => x
  | x :: xs => x ++ "\n" ++ joinNL xs

/-- The `context_str` assembled by `forward` when an LM is configured:
every entry of `metadata_with_selection` contributes one line. -/
def buildContext (entries : List (List (String × Val))) : String :=
  joinNL (entries.enum.map (fun ie => fmtPassageLine ie.1 ie.2))

/-- The final prompt template of `forward`. -/
def buildPrompt (contextStr query : String) : String :=
  "Use the following context to answer the query.\n\nContext:\n" ++ contextStr
    ++ "\n\nQuery: " ++ query ++ "\n\nAnswer:"

/-- `REFRAGContext`. -/
structure REFRAGContext where
  query : String
  chunk_vectors : List (List ℚ)
  chunk_metadata : List (List (String × Val))
  answer : Option String

/-- `REFRAGModule.forward`.  The external retriever's outputs (the `k`
retrieved passages and the embedded query vector) are inputs; the
sensor's `select` and the optional generation backend are the injected
`sensorSel` and `lm` (the `try/except` around the LM call only shapes
the answer string, which `lm` models as a total function). -/
def forward (sensorSel : List ℚ → List (List ℚ) → ℕ → List ℕ)
    (lm : Option (String → String)) (budget : ℕ)
    (query : String) (queryVecEmbed : List ℚ) (passages : List Passage) :
    REFRAGContext :=
  let vectors := passages.map (fun p => p.vector)
  let selectedIdxs := sensorSel queryVecEmbed vectors budget
  let entries := forwardMeta passages selectedIdxs
  match lm with
  | none => ⟨query, vectors, entries, none⟩
  | some g => ⟨query, vectors, entries, some (g (buildPrompt (buildContext entries) query))⟩

/-! ### Fragments and the serialization subsystem -/

/-- `Fragment` (fragment.py).  Embedding floats are modelled in `ℝ`
because the structured-text codec rescales by an L2 norm (`np.sqrt`). -/
structure Fragment where
  text : String
  embedding : List ℝ
  metadata : List (String × Val)
  fragment_id : String
  parent_doc_id : Option String

/-- Python whitespace for `str.strip()` (the ASCII cases; enough for
the fragments this repository builds). -/
def isPyWhitespace (c : Char) : Bool :=
  c = ' ' || c = '\t' || c = '\n' || c = '\r' || c = '\x0b' || c = '\x0c'

/-- Python `str.strip()`: drop leading and trailing whitespace. -/
def pyStrip (s : String) : String :=
  ⟨((s.data.dropWhile isPyWhitespace).reverse.dropWhile isPyWhitespace).reverse⟩

/-- `Fragment.__post_init__`: the validation run whenever a `Fragment`
is constructed, in source order (the `len(embedding) == 0` re-check is
subsumed by the truthiness check preceding it). -/
def Fragment.validate (f : Fragment) : Except String Fragment :=
  if pyStrip f.text = "" then .error "Fragment text cannot be empty."
  else
    match f.embedding with
    | [] => .error "Fragment embedding cannot be empty."
    | _ :: _ =>
        if f.fragment_id = "" then .error "Fragment ID cannot be empty."
        else .ok f

/-- A `Fragment` satisfying `__post_init__`; every live Python
`Fragment` does. -/
def Fragment.valid (f : Fragment) : Prop :=
  pyStrip f.text ≠ "" ∧ f.embedding ≠ [] ∧ f.fragment_id ≠ ""

/-- `Fragment.from_dict` = `cls(**data)`, which re-runs
`__post_init__`.  The wire layer of each codec is modelled at the
field level: `json.dumps/loads`, `msgpack.packb/unpackb` and
`pickle.dumps/loads` are injective on the dict of primitive field
values and reproduce them exactly. -/
def Fragment.from_dict (d : Fragment) : Except String Fragment :=
  Fragment.validate d

/-- `np.linalg.norm` of a 1-D vector. -/
noncomputable def l2norm (v : List ℝ) : ℝ :=
  Real.sqrt (v.map (fun x => x * x)).sum

/-- `JSONFragmentSerializer._normalize`: rescale to unit length unless
the norm is zero. -/
noncomputable def normalizeVec (v : List ℝ) : List ℝ :=
  if 0 < l2norm v then v.map (fun x => x / l2norm v) else v

/-- `JSONFragmentSerializer.serialize_fragment` (field level): the dict
of `to_dict`, with the embedding normalized when `normalize_vectors`
is set and the embedding list is truthy (nonempty). -/
noncomputable def jsonSerializeFragment (normalize_vectors : Bool) (f : Fragment) :
    Fragment :=
  if normalize_vectors then
    match f.embedding with
    | [] => f
    | _ :: _ => { f with embedding := normalizeVec f.embedding }
  else f

/-- `JSONFragmentSerializer.deserialize_fragment`. -/
def jsonDeserializeFragment (d : Fragment) : Except String Fragment :=
  Fragment.from_dict d

/-- `MsgPackSerializer.serialize_fragment` (field level): `to_dict`
then a lossless binary packing. -/
def msgpackSerializeFragment (f : Fragment) : Fragment := f

/-- `MsgPackSerializer.deserialize_fragment`: unpack then `from_dict`. -/
def msgpackDeserializeFragment (d : Fragment) : Except String Fragment :=
  Fragment.from_dict d

/-- `PickleSerializer.serialize_fragment`: pickles the object itself. -/
def pickleSerializeFragment (f : Fragment) : Fragment := f

/-- `PickleSerializer.deserialize_fragment`: unpickling restores the
object graph without re-running `__init__`/`__post_init__`. -/
def pickleDeserializeFragment (d : Fragment) : Fragment := d

/-- `UnifiedSerializer.SUPPORTED_FORMATS`. -/
def SUPPORTED_FORMATS : List String := ["json", "msgpack", "pickle"]

/-- The unified facade's state: the validated default format tag and
whether the optional msgpack codec imported. -/
structure UnifiedSerializer where
  default_format : String
  has_msgpack : Bool
deriving DecidableEq

/-- `UnifiedSerializer.__init__`: an unrecognized default format tag
raises `ValueError` before anything else is built. -/
def UnifiedSerializer.init (default_format : String) (has_msgpack : Bool) :
    Except String UnifiedSerializer :=
  if default_format ∈ SUPPORTED_FORMATS then
    .ok ⟨default_format, has_msgpack⟩
  else .error ("Unsupported format: " ++ default_format)

/-- `UnifiedSerializer.serialize` (batch, field level).  `format or
self.default_format` makes an empty tag fall back to the default; the
json branch uses `JSONFragmentSerializer()` whose `normalize_vectors`
defaults to true. -/
noncomputable def UnifiedSerializer.serialize (u : UnifiedSerializer)
    (fragments : List Fragment) (format : Option String) :
    Except String (List Fragment) :=
  let fmt := match format with
    | none => u.default_format
    | some s => if s = "" then u.default_format else s
  if fmt = "json" then .ok (fragments.map (jsonSerializeFragment true))
  else if fmt = "msgpack" then
    if u.has_msgpack then .ok fragments else .error "msgpack not available"
  else if fmt = "pickle" then .ok fragments
  else .error ("Unsupported format: " ++ fmt)

/-! ## Theorems -/

/-- The configuration used throughout as a concrete invalid example. -/
def badConfig : SelectionConfig := { diversity_lambda := 2 }

/-- A concrete valid non-default configuration. -/
def goodConfig : SelectionConfig := { strategy := .mmr, diversity_lambda := 1 }

lemma normalizeVec_ne_nil {v : List ℝ} (hv : v ≠ []) : normalizeVec v ≠ [] := by
  unfold normalizeVec
  split
  · simpa using hv
  · exact hv

lemma jsonSerialize_of_ne_nil (f : Fragment) (he : f.embedding ≠ []) :
    jsonSerializeFragment true f = { f with embedding := normalizeVec f.embedding } := by
  unfold jsonSerializeFragment
  rw [if_pos rfl]
  split
  · next h => exact absurd h he
  · rfl

lemma validate_of_valid {f : Fragment} (hf : f.valid) : Fragment.validate f = .ok f := by
  obtain ⟨ht, he, hid⟩ := hf
  unfold Fragment.validate
  rw [if_neg ht]
  cases hemb : f.embedding with
  | nil => exact absurd hemb he
  | cons x xs => rw [if_neg hid]

/-- C8: invalid `SelectionConfig` parameters are fatal when the sensor
is constructed (the config is stored unchanged otherwise, never
clamped), and an unrecognized format tag is fatal both at construction
of the unified facade and at dispatch time of `serialize`. -/
theorem C8_config_errors_fatal (c c' : SelectionConfig) (fmt : String) (hm : Bool)
    (st : UnifiedSerializer) (frags : List Fragment)
    (hbad : ¬ validConfig c) (hgood : validConfig c')
    (hfmt : fmt ∉ SUPPORTED_FORMATS) (hne : fmt ≠ "") :
    (∃ e, AdvancedSensor.init c = .error e) ∧
    AdvancedSensor.init c' = .ok ⟨c'⟩ ∧
    (∃ e, UnifiedSerializer.init fmt hm = .error e) ∧
    (∃ e, st.serialize frags (some fmt) = .error e) := by
  refine ⟨?_, ?_, ?_, ?_⟩
  · unfold AdvancedSensor.init
    split_ifs with h1 h2 h3
    · exact ⟨_, rfl⟩
    · exact ⟨_, rfl⟩
    · exact ⟨_, rfl⟩
    · push_neg at h1 h2 h3
      exact absurd ⟨h1.1, h1.2, h2, h3.1, h3.2⟩ hbad
  · obtain ⟨g1, g2, g3, g4, g5⟩ := hgood
    unfold AdvancedSensor.init
    rw [if_neg (by push_neg; exact ⟨g1, g2⟩), if_neg (not_le.mpr g3),
      if_neg (by push_neg; exact ⟨g4, g5⟩)]
  · unfold UnifiedSerializer.init
    rw [if_neg hfmt]
    exact ⟨_, rfl⟩
  · unfold UnifiedSerializer.serialize
    have hj : fmt ≠ "json" := by rintro rfl; exact hfmt (by decide)
    have hms : fmt ≠ "msgpack" := by rintro rfl; exact hfmt (by decide)
    have hp : fmt ≠ "pickle" := by rintro rfl; exact hfmt (by decide)
    simp only [if_neg hne, if_neg hj, if_neg hms, if_neg hp]
    exact ⟨_, rfl⟩

/-- Witness for C8 at a concrete invalid config (`diversity_lambda = 2`),
a concrete valid one and the unknown tag `"xml"`. -/
theorem C8_config_errors_fatal_witness :
    (¬ validConfig badConfig ∧ validConfig goodConfig ∧
      "xml" ∉ SUPPORTED_FORMATS ∧ "xml" ≠ "") ∧
    ((∃ e, AdvancedSensor.init badConfig = .error e) ∧
      AdvancedSensor.init goodConfig = .ok ⟨goodConfig⟩ ∧
      (∃ e, UnifiedSerializer.init "xml" true = .error e) ∧
      (∃ e, UnifiedSerializer.serialize ⟨"json", true⟩ [] (some "xml") = .error e)) := by
  have h1 : ¬ validConfig badConfig := by
    intro h
    exact absurd h.2.1 (by norm_num [badConfig])
  have h2 : validConfig goodConfig := by
    refine ⟨by norm_num [goodConfig], by norm_num [goodConfig], by norm_num [goodConfig],
      by norm_num [goodConfig], by norm_num [goodConfig]⟩
  have h3 : "xml" ∉ SUPPORTED_FORMATS := by decide
  have h4 : "xml" ≠ "" := by decide
  exact ⟨⟨h1, h2, h3, h4⟩,
    C8_config_errors_fatal badConfig goodConfig "xml" true ⟨"json", true⟩ [] h1 h2 h3 h4⟩

/-- C3: field-level round trips.  The native binary codec (pickle) and
the compact binary codec (msgpack) reproduce every field of a valid
fragment exactly; the structured-text codec (json) with normalization
enabled reproduces every field except the embedding, which decodes to
the unit-normalized form of the original embedding. -/
theorem C3_codec_roundtrip (f : Fragment) (hf : f.valid) :
    pickleDeserializeFragment (pickleSerializeFragment f) = f ∧
    msgpackDeserializeFragment (msgpackSerializeFragment f) = .ok f ∧
    jsonDeserializeFragment (jsonSerializeFragment true f) =
      .ok { f with embedding := normalizeVec f.embedding } := by
  obtain ⟨ht, he, hid⟩ := hf
  refine ⟨rfl, validate_of_valid ⟨ht, he, hid⟩, ?_⟩
  rw [jsonSerialize_of_ne_nil f he]
  unfold jsonDeserializeFragment Fragment.from_dict
  exact validate_of_valid ⟨ht, normalizeVec_ne_nil he, hid⟩

/-- The fragment used to witness C3. -/
def sampleFragment : Fragment :=
  { text := "a", embedding := [1], metadata := [("source", Val.str "test")],
    fragment_id := "frag_001", parent_doc_id := none }

/-- Witness for C3: on `sampleFragment` (embedding `[1]`, already unit
length, so the normalized embedding is again `[1]`) all three codecs
reproduce the fragment exactly. -/
theorem C3_codec_roundtrip_witness :
    sampleFragment.valid ∧
    (pickleDeserializeFragment (pickleSerializeFragment sampleFragment) = sampleFragment ∧
      msgpackDeserializeFragment (msgpackSerializeFragment sampleFragment) =
        .ok sampleFragment ∧
      jsonDeserializeFragment (jsonSerializeFragment true sampleFragment) =
        .ok sampleFragment) := by
  have hv : sampleFragment.valid := by
    refine ⟨by decide, by simp [sampleFragment], by decide⟩
  have hn : normalizeVec sampleFragment.embedding = [1] := by
    norm_num [sampleFragment, normalizeVec, l2norm]
  have h := C3_codec_roundtrip sampleFragment hv
  refine ⟨hv, h.1, h.2.1, ?_⟩
  have h3 := h.2.2
  have hrec : ({ sampleFragment with embedding := normalizeVec sampleFragment.embedding } :
      Fragment) = sampleFragment := by
    rw [hn]
    rfl
  rwa [hrec] at h3

/-- C10: `Sensor.select` in `learned` mode with `learned_weights = None`
never returns: the "fallback" call re-enters `select` on the unchanged
sensor, so no amount of fuel produces a result (Python overflows the
recursion limit).  This contradicts the inline comment "Fallback to
heuristic if no weights". -/
theorem C10_learned_no_weights_diverges (fuel : ℕ) (t : Option ℚ)
    (queryVec : List ℚ) (chunkVecs : List (List ℚ)) (budget : ℕ) :
    Sensor.selectFuel fuel ⟨.learned, t, none⟩ queryVec chunkVecs budget = none := by
  induction fuel with
  | zero => rfl
  | succ n ih => simpa [Sensor.selectFuel] using ih

/-! ### Pipeline lemmas (C9, C6, C2) -/

lemma lookup_append (l₁ l₂ : List (String × Val)) (k : String) :
    (l₁ ++ l₂).lookup k =
      match l₁.lookup k with
      | some v => some v
      | none => l₂.lookup k := by
  induction l₁ with
  | nil => simp [List.lookup]
  | cons p l ih =>
      cases hbe : (k == p.1) with
      | true => simp [List.lookup, hbe]
      | false => simpa [List.lookup, hbe] using ih

lemma annotate_lookup_selected (m : List (String × Val)) (flag : Bool) :
    (annotate m flag).lookup "selected" =
      some ((m.lookup "selected").getD (Val.bool flag)) := by
  unfold annotate
  split
  · next h =>
      obtain ⟨v, hv⟩ := Option.isSome_iff_exists.mp h
      rw [hv]
      rfl
  · next h =>
      rw [Option.not_isSome_iff_eq_none] at h
      rw [lookup_append, h]
      rfl

lemma annotate_lookup_other (m : List (String × Val)) (flag : Bool) (k : String)
    (hk : k ≠ "selected") : (annotate m flag).lookup k = m.lookup k := by
  unfold annotate
  split
  · rfl
  · rw [lookup_append]
    cases h : m.lookup k with
    | some v => rfl
    | none =>
        have hbe : (k == "selected") = false := by simpa using hk
        simp only [List.lookup, hbe]

lemma forwardMeta_length (passages : List Passage) (sel : List ℕ) :
    (forwardMeta passages sel).length = passages.length := by
  simp [forwardMeta]

lemma forwardMeta_getD (passages : List Passage) (sel : List ℕ) (i : ℕ)
    (hi : i < passages.length) :
    (forwardMeta passages sel).getD i [] =
      annotate (passages[i].metadata) (sel.contains i) := by
  have hlen : i < (forwardMeta passages sel).length := by
    rwa [forwardMeta_length]
  rw [List.getD_eq_getElem _ _ hlen]
  simp [forwardMeta]

lemma forward_chunk_metadata (sensorSel : List ℚ → List (List ℚ) → ℕ → List ℕ)
    (lm : Option (String → String)) (budget : ℕ) (query : String)
    (qv : List ℚ) (passages : List Passage) :
    (forward sensorSel lm budget query qv passages).chunk_metadata =
      forwardMeta passages
        (sensorSel qv (passages.map (fun p => p.vector)) budget) := by
  unfold forward
  cases lm <;> rfl

lemma forward_answer_none (sensorSel : List ℚ → List (List ℚ) → ℕ → List ℕ)
    (budget : ℕ) (query : String) (qv : List ℚ) (passages : List Passage) :
    (forward sensorSel none budget query qv passages).answer = none := rfl

/-- C9: `forward` annotates a *copy* of each candidate's metadata with
`setdefault`: the returned entry keeps a pre-existing `selected` value
unchanged, the selection outcome is written only when the key is
absent, and every other key is untouched (the original association list
appears unchanged inside the output, extended only at the end). -/
theorem C9_selected_setdefault (passages : List Passage) (sel : List ℕ) (i : ℕ)
    (hi : i < passages.length) :
    ((forwardMeta passages sel).getD i []).lookup "selected" =
      some (((passages[i].metadata).lookup "selected").getD
        (Val.bool (sel.contains i))) ∧
    (∀ k, k ≠ "selected" →
      ((forwardMeta passages sel).getD i []).lookup k =
        (passages[i].metadata).lookup k) ∧
    (((passages[i].metadata).lookup "selected").isSome →
      (forwardMeta passages sel).getD i [] = passages[i].metadata) ∧
    ((passages[i].metadata).lookup "selected" = none →
      (forwardMeta passages sel).getD i [] =
        passages[i].metadata ++ [("selected", Val.bool (sel.contains i))]) := by
  rw [forwardMeta_getD passages sel i hi]
  refine ⟨annotate_lookup_selected _ _, fun k hk => annotate_lookup_other _ _ k hk,
    fun h => ?_, fun h => ?_⟩
  · unfold annotate
    rw [if_pos h]
  · unfold annotate
    rw [if_neg (by simp [h])]

/-- Witness for C9: one passage arrives with `selected: "yes"` already
present, another without the key; the first entry is returned verbatim,
the second gains `selected: False`. -/
theorem C9_selected_setdefault_witness :
    (0 : ℕ) < 2 ∧ (1 : ℕ) < 2 ∧
    (forwardMeta [⟨[], [("selected", Val.str "yes")]⟩, ⟨[], [("k", Val.str "v")]⟩]
        [0]).getD 0 [] = [("selected", Val.str "yes")] ∧
    (forwardMeta [⟨[], [("selected", Val.str "yes")]⟩, ⟨[], [("k", Val.str "v")]⟩]
        [0]).getD 1 [] = [("k", Val.str "v"), ("selected", Val.bool false)] := by
  have h0 :=
    (C9_selected_setdefault
      [⟨[], [("selected", Val.str "yes")]⟩, ⟨[], [("k", Val.str "v")]⟩] [0] 0
      (by decide)).2.2.1
  have h1 :=
    (C9_selected_setdefault
      [⟨[], [("selected", Val.str "yes")]⟩, ⟨[], [("k", Val.str "v")]⟩] [0] 1
      (by decide)).2.2.2
  refine ⟨by decide, by decide, ?_, ?_⟩
  · exact h0 (by decide)
  · exact h1 (by decide)

/-- The three retrieved candidates of the spec's end-to-end scenario
(scores 3, 1, 2 against query vector `[1]`, so the heuristic sensor
with budget 1 selects index 0). -/
def demoPassages : List Passage :=
  [⟨[3], [("text", Val.str "t0")]⟩, ⟨[1], [("text", Val.str "t1")]⟩,
   ⟨[2], [("text", Val.str "t2")]⟩]

lemma demo_select : heuristicSelect none [1] [[3], [1], [2]] 1 = [0] := by
  norm_num [heuristicSelect, dot, pySortDescBy, computeSimilarities,
    List.insertionSort, List.orderedInsert]

/-- C6 (amended): every pipeline run returns exactly one metadata entry
per retrieved candidate, each carrying a `selected` key (its value is
the boolean selection outcome whenever the candidate arrived without a
`selected` entry — see the counterexample for a pre-existing non-boolean
value); in the concrete scenario — 3 candidates, budget 1, no
generation backend — the result has exactly 3 entries, exactly one with
`selected = True`, and a null answer. -/
theorem C6_metadata_invariant (sensorSel : List ℚ → List (List ℚ) → ℕ → List ℕ)
    (lm : Option (String → String)) (budget : ℕ) (query : String)
    (qv : List ℚ) (passages : List Passage) :
    (forward sensorSel lm budget query qv passages).chunk_metadata.length =
      passages.length ∧
    (∀ e ∈ (forward sensorSel lm budget query qv passages).chunk_metadata,
      (e.lookup "selected").isSome) ∧
    (forward (heuristicSelect none) none 1 "q" [1] demoPassages).chunk_metadata.length
      = 3 ∧
    ((forward (heuristicSelect none) none 1 "q" [1] demoPassages).chunk_metadata.countP
      (fun e => e.lookup "selected" = some (Val.bool true))) = 1 ∧
    (forward (heuristicSelect none) none 1 "q" [1] demoPassages).answer = none := by
  have hsel3 : heuristicSelect none [1] (demoPassages.map (fun p => p.vector)) 1 = [0] :=
    demo_select
  have hmeta : (forward (heuristicSelect none) none 1 "q" [1] demoPassages).chunk_metadata
      = forwardMeta demoPassages [0] := by
    rw [forward_chunk_metadata, hsel3]
  refine ⟨?_, ?_, ?_, ?_, rfl⟩
  · rw [forward_chunk_metadata, forwardMeta_length]
  · intro e he
    rw [forward_chunk_metadata] at he
    obtain ⟨i, hilen, hig⟩ := List.mem_iff_getElem.mp he
    have hip : i < passages.length := by
      rwa [forwardMeta_length] at hilen
    have := forwardMeta_getD passages
      (sensorSel qv (passages.map (fun p => p.vector)) budget) i hip
    rw [List.getD_eq_getElem _ _ hilen, hig] at this
    rw [this, annotate_lookup_selected]
    rfl
  · rw [hmeta]
    decide
  · rw [hmeta]
    decide

/-- Witness for C6: the general conjuncts applied to the concrete
scenario run (3 entries, one `selected: True`, null answer). -/
theorem C6_metadata_invariant_witness :
    (forward (heuristicSelect none) none 1 "q" [1] demoPassages).chunk_metadata.length
      = demoPassages.length ∧
    (forward (heuristicSelect none) none 1 "q" [1] demoPassages).chunk_metadata.length
      = 3 ∧
    ((forward (heuristicSelect none) none 1 "q" [1] demoPassages).chunk_metadata.countP
      (fun e => e.lookup "selected" = some (Val.bool true))) = 1 ∧
    (forward (heuristicSelect none) none 1 "q" [1] demoPassages).answer = none := by
  have h := C6_metadata_invariant (heuristicSelect none) none 1 "q" [1] demoPassages
  exact ⟨h.1, h.2.2.1, h.2.2.2.1, h.2.2.2.2⟩

/-- Counterexample for C6 as frozen: a candidate can arrive with a
non-boolean `selected` value (here the string `"yes"`); `setdefault`
keeps it, so the returned entry does *not* carry a boolean `selected`
key. -/
theorem C6_counterexample :
    ((forward (heuristicSelect none) none 1 "q" [1]
        [⟨[1], [("selected", Val.str "yes")]⟩]).chunk_metadata.getD 0 []).lookup
      "selected" = some (Val.str "yes") ∧
    (∀ b : Bool,
      ((forward (heuristicSelect none) none 1 "q" [1]
          [⟨[1], [("selected", Val.str "yes")]⟩]).chunk_metadata.getD 0 []).lookup
        "selected" ≠ some (Val.bool b)) := by
  have hsel : heuristicSelect none [1] [[1]] 1 = [0] := by
    norm_num [heuristicSelect, dot, pySortDescBy, List.insertionSort, List.orderedInsert]
  have hmeta : (forward (heuristicSelect none) none 1 "q" [1]
      [⟨[1], [("selected", Val.str "yes")]⟩]).chunk_metadata
      = forwardMeta [⟨[1], [("selected", Val.str "yes")]⟩] [0] := by
    rw [forward_chunk_metadata]
    congr 1
  constructor
  · rw [hmeta]
    decide
  · intro b
    rw [hmeta]
    cases b <;> decide

/-! C2: the context block. -/

lemma joinNL_infix (l : List String) (s : String) (hs : s ∈ l) :
    ∃ pre post, (joinNL l).data = pre ++ s.data ++ post := by
  induction l with
  | nil => cases hs
  | cons x xs ih =>
      cases hs with
      | head =>
          cases xs with
          | nil => exact ⟨[], [], by simp [joinNL]⟩
          | cons y ys =>
              exact ⟨[], ("\n" ++ joinNL (y :: ys)).data, by
                simp [joinNL, String.data_append]⟩
      | tail _ hmem =>
          obtain ⟨pre, post, hpp⟩ := ih hmem
          cases xs with
          | nil => cases hmem
          | cons y ys =>
              refine ⟨(x ++ "\n").data ++ pre, post, ?_⟩
              simp [joinNL, String.data_append, hpp]

lemma fmtPassageLine_infix (i : ℕ) (m : List (String × Val)) (t : String)
    (ht : m.lookup "text" = some (Val.str t)) :
    ∃ pre post, (fmtPassageLine i m).data = pre ++ t.data ++ post := by
  refine ⟨("Passage " ++ toString i ++ ": ").data,
    (" (selected: " ++ ((m.lookup "selected").getD (Val.bool false)).render ++ ")").data,
    ?_⟩
  unfold fmtPassageLine
  rw [ht]
  simp [String.data_append, Val.render]

lemma buildContext_infix (entries : List (List (String × Val))) (i : ℕ)
    (hi : i < entries.length) (t : String)
    (ht : (entries.getD i []).lookup "text" = some (Val.str t)) :
    ∃ pre post, (buildContext entries).data = pre ++ t.data ++ post := by
  rw [List.getD_eq_getElem _ _ hi] at ht
  have hmem : fmtPassageLine i entries[i] ∈
      entries.enum.map (fun ie => fmtPassageLine ie.1 ie.2) := by
    refine List.mem_map.mpr ⟨(i, entries[i]), ?_, rfl⟩
    have hie : i < entries.enum.length := by simpa using hi
    have : entries.enum[i] = (i, entries[i]) := by
      simp
    exact this ▸ List.getElem_mem hie
  obtain ⟨p1, q1, h1⟩ := joinNL_infix _ _ hmem
  obtain ⟨p2, q2, h2⟩ := fmtPassageLine_infix i entries[i] t ht
  exact ⟨p1 ++ p2, q2 ++ q1, by
    unfold buildContext
    rw [h1, h2]
    simp [List.append_assoc]⟩

/-- C2 (amended): the context block placed into the final prompt is the
newline-join of one line per retrieved candidate (in retrieval order,
each annotated with its `selected` flag), so the text of *every*
candidate — selected or not — appears in the context block. -/
theorem C2_context_contains_every_candidate
    (sensorSel : List ℚ → List (List ℚ) → ℕ → List ℕ)
    (lm : Option (String → String)) (budget : ℕ) (query : String)
    (qv : List ℚ) (passages : List Passage) (i : ℕ)
    (hi : i < passages.length) (t : String)
    (ht : ((forward sensorSel lm budget query qv passages).chunk_metadata.getD i
      []).lookup "text" = some (Val.str t)) :
    ∃ pre post,
      (buildContext
        (forward sensorSel lm budget query qv passages).chunk_metadata).data =
        pre ++ t.data ++ post := by
  have hlen : i < (forward sensorSel lm budget query qv passages).chunk_metadata.length := by
    rw [forward_chunk_metadata, forwardMeta_length]
    exact hi
  exact buildContext_infix _ i hlen t ht

/-- Witness for C2 at the concrete two-candidate run with budget 1:
candidate 1 ("beta") is not selected, yet its text appears in the
context block. -/
theorem C2_context_contains_every_candidate_witness :
    ((1 : ℕ) < 2 ∧
      ((forward (heuristicSelect none) none 1 "q" [1]
          [⟨[2], [("text", Val.str "alpha")]⟩, ⟨[1], [("text", Val.str "beta")]⟩]
        ).chunk_metadata.getD 1 []).lookup "text" = some (Val.str "beta")) ∧
    (∃ pre post,
      (buildContext
        (forward (heuristicSelect none) none 1 "q" [1]
          [⟨[2], [("text", Val.str "alpha")]⟩, ⟨[1], [("text", Val.str "beta")]⟩]
        ).chunk_metadata).data = pre ++ "beta".data ++ post) := by
  have hsel : heuristicSelect none [1]
      [[2], [1]] 1 = [0] := by
    norm_num [heuristicSelect, dot, pySortDescBy, List.insertionSort, List.orderedInsert]
  have hmeta : (forward (heuristicSelect none) none 1 "q" [1]
      [⟨[2], [("text", Val.str "alpha")]⟩, ⟨[1], [("text", Val.str "beta")]⟩]
    ).chunk_metadata
      = forwardMeta
          [⟨[2], [("text", Val.str "alpha")]⟩, ⟨[1], [("text", Val.str "beta")]⟩] [0] := by
    rw [forward_chunk_metadata]
    congr 1
  have ht : ((forward (heuristicSelect none) none 1 "q" [1]
      [⟨[2], [("text", Val.str "alpha")]⟩, ⟨[1], [("text", Val.str "beta")]⟩]
    ).chunk_metadata.getD 1 []).lookup "text" = some (Val.str "beta") := by
    rw [hmeta]
    decide
  exact ⟨⟨by decide, ht⟩,
    C2_context_contains_every_candidate (heuristicSelect none) none 1 "q" [1]
      [⟨[2], [("text", Val.str "alpha")]⟩, ⟨[1], [("text", Val.str "beta")]⟩] 1
      (by decide) "beta" ht⟩

/-- Counterexample for C2 as frozen: in the same two-candidate run,
candidate 1 is not among the selected indices, yet "beta" occurs inside
the context block — the block is not a concatenation of only the
selected candidates' texts. -/
theorem C2_counterexample :
    (1 : ℕ) ∉ heuristicSelect none [1] [[2], [1]] 1 ∧
    (∃ pre post,
      (buildContext
        (forwardMeta
          [⟨[2], [("text", Val.str "alpha")]⟩, ⟨[1], [("text", Val.str "beta")]⟩]
          (heuristicSelect none [1] [[2], [1]] 1))).data =
        pre ++ "beta".data ++ post) := by
  have hsel : heuristicSelect none [1] [[2], [1]] 1 = [0] := by
    norm_num [heuristicSelect, dot, pySortDescBy, List.insertionSort, List.orderedInsert]
  constructor
  · rw [hsel]
    decide
  · rw [hsel]
    refine buildContext_infix _ 1 (by decide) "beta" ?_
    decide

/-! ### Order and permutation facts about `np_argsort` (C7, C4, C1) -/

instance argsortLe_total (l : List ℚ) : IsTotal ℕ (argsortLe l) := by
  constructor
  intro i j
  rcases lt_trichotomy (l.getD i 0) (l.getD j 0) with h | h | h
  · exact Or.inl (Or.inl h)
  · rcases Nat.le_total i j with hij | hij
    · exact Or.inl (Or.inr ⟨h, hij⟩)
    · exact Or.inr (Or.inr ⟨h.symm, hij⟩)
  · exact Or.inr (Or.inl h)

instance argsortLe_trans (l : List ℚ) : IsTrans ℕ (argsortLe l) := by
  constructor
  intro a b c hab hbc
  rcases hab with h1 | ⟨e1, i1⟩
  · rcases hbc with h2 | ⟨e2, _⟩
    · exact Or.inl (h1.trans h2)
    · exact Or.inl (e2 ▸ h1)
  · rcases hbc with h2 | ⟨e2, i2⟩
    · exact Or.inl (e1 ▸ h2)
    · exact Or.inr ⟨e1.trans e2, i1.trans i2⟩

instance argsortLe_antisymm (l : List ℚ) : IsAntisymm ℕ (argsortLe l) := by
  constructor
  intro a b hab hba
  rcases hab with h1 | ⟨e1, i1⟩
  · rcases hba with h2 | ⟨e2, _⟩
    · exact absurd h2 (lt_asymm h1)
    · exact absurd e2 (ne_of_gt h1)
  · rcases hba with h2 | ⟨_, i2⟩
    · exact absurd e1 (ne_of_gt h2)
    · exact Nat.le_antisymm i1 i2

lemma np_argsort_perm (l : List ℚ) : List.Perm (np_argsort l) (List.range l.length) :=
  List.perm_insertionSort _ _

lemma np_argsort_length (l : List ℚ) : (np_argsort l).length = l.length := by
  rw [(np_argsort_perm l).length_eq, List.length_range]

lemma np_argsort_nodup (l : List ℚ) : (np_argsort l).Nodup :=
  ((np_argsort_perm l).nodup_iff).mpr (List.nodup_range _)

lemma np_argsort_mem {l : List ℚ} {i : ℕ} : i ∈ np_argsort l ↔ i < l.length := by
  rw [(np_argsort_perm l).mem_iff, List.mem_range]

lemma np_argsort_sorted (l : List ℚ) : (np_argsort l).Pairwise (argsortLe l) :=
  List.sorted_insertionSort _ _

/-- The strict ordering a reversed stable ascending argsort realizes:
descending score, equal scores broken by *descending* original index. -/
def descRank (l : List ℚ) (i j : ℕ) : Prop :=
  l.getD j 0 < l.getD i 0 ∨ (l.getD i 0 = l.getD j 0 ∧ j < i)

instance (l : List ℚ) : DecidableRel (descRank l) := fun i j => by
  unfold descRank; infer_instance

lemma reverse_argsort_pairwise (l : List ℚ) :
    ((np_argsort l).reverse).Pairwise (descRank l) := by
  have hflip : ((np_argsort l).reverse).Pairwise (fun i j => argsortLe l j i) :=
    List.pairwise_reverse.mpr (np_argsort_sorted l)
  have hne : ((np_argsort l).reverse).Pairwise (fun i j => i ≠ j) :=
    List.Pairwise.imp (fun h => h) ((List.nodup_reverse.mpr (np_argsort_nodup l)))
  refine (hflip.and hne).imp ?_
  rintro a b ⟨hle, hab⟩
  rcases hle with h | ⟨he, hba⟩
  · exact Or.inl h
  · exact Or.inr ⟨he.symm, lt_of_le_of_ne hba (Ne.symm hab)⟩

lemma topByScore_pairwise (l : List ℚ) (b : ℕ) :
    (topByScore l b).Pairwise (descRank l) :=
  (reverse_argsort_pairwise l).sublist (List.take_sublist _ _)

lemma topByScore_length (l : List ℚ) (b : ℕ) :
    (topByScore l b).length = min b l.length := by
  simp [topByScore, np_argsort_length]

lemma topByScore_nodup (l : List ℚ) (b : ℕ) : (topByScore l b).Nodup :=
  (List.nodup_reverse.mpr (np_argsort_nodup l)).sublist (List.take_sublist _ _)

lemma topByScore_mem {l : List ℚ} {b i : ℕ} (h : i ∈ topByScore l b) :
    i < l.length := by
  have : i ∈ (np_argsort l).reverse := (List.take_sublist _ _).mem h
  rw [List.mem_reverse] at this
  exact np_argsort_mem.mp this

lemma topByScore_beats (l : List ℚ) (b : ℕ) :
    ∀ i ∈ topByScore l b, ∀ j, j < l.length → j ∉ topByScore l b →
      descRank l i j := by
  intro i hi j hj hnj
  have hsplit : (np_argsort l).reverse =
      topByScore l b ++ ((np_argsort l).reverse).drop b :=
    (List.take_append_drop b _).symm
  have hjmem : j ∈ (np_argsort l).reverse := by
    rw [List.mem_reverse, np_argsort_mem]
    exact hj
  rw [hsplit] at hjmem
  rcases List.mem_append.mp hjmem with h | h
  · exact absurd h hnj
  · have hp := reverse_argsort_pairwise l
    rw [hsplit] at hp
    exact (List.pairwise_append.mp hp).2.2 i hi j h

/-- C7 (amended): Similarity (with `minScore` unset) ranks candidates
in descending order of dot-product score, but `np.argsort(...)[::-1]`
reverses a stable ascending sort, so candidates with equal scores are
ordered by *descending* original index, and on truncation to the
budget the higher original index is preferred among ties; every
selected index beats (in that order) every unselected in-range index. -/
theorem C7_similarity_ranking (queryVec : List ℚ) (chunkVecs : List (List ℚ))
    (budget : ℕ) :
    (selectSimilarity none queryVec chunkVecs budget).Pairwise
      (descRank (computeSimilarities queryVec chunkVecs)) ∧
    (∀ i ∈ selectSimilarity none queryVec chunkVecs budget,
      ∀ j, j < chunkVecs.length →
        j ∉ selectSimilarity none queryVec chunkVecs budget →
          descRank (computeSimilarities queryVec chunkVecs) i j) := by
  have hlen : (computeSimilarities queryVec chunkVecs).length = chunkVecs.length := by
    simp [computeSimilarities]
  constructor
  · exact topByScore_pairwise _ _
  · intro i hi j hj hnj
    exact topByScore_beats _ _ i hi j (by rwa [hlen]) hnj

/-- Witness for C7 at query `[1]`, candidates `[[2],[1]]`, budget 1:
index 0 is selected and beats the unselected index 1. -/
theorem C7_similarity_ranking_witness :
    ((0 : ℕ) ∈ selectSimilarity none [1] [[2], [1]] 1 ∧ (1 : ℕ) < 2 ∧
      (1 : ℕ) ∉ selectSimilarity none [1] [[2], [1]] 1) ∧
    descRank (computeSimilarities [1] [[2], [1]]) 0 1 := by
  have hsel : selectSimilarity none [1] [[2], [1]] 1 = [0] := by
    norm_num [selectSimilarity, computeSimilarities, dot, topByScore, np_argsort,
      argsortLe, List.insertionSort, List.orderedInsert]
  have h0 : (0 : ℕ) ∈ selectSimilarity none [1] [[2], [1]] 1 := by
    rw [hsel]; decide
  have h1 : (1 : ℕ) ∉ selectSimilarity none [1] [[2], [1]] 1 := by
    rw [hsel]; decide
  exact ⟨⟨h0, by decide, h1⟩,
    (C7_similarity_ranking [1] [[2], [1]] 1).2 0 h0 1 (by decide) h1⟩

/-- Counterexample for C7 as frozen: two candidates with equal scores
are returned as `[1, 0]` — the *higher* original index first — so ties
are not broken by ascending original index. -/
theorem C7_counterexample :
    selectSimilarity none [1] [[1], [1]] 2 = [1, 0] ∧
    computeSimilarities [1] [[1], [1]] = [1, 1] ∧
    ¬ (selectSimilarity none [1] [[1], [1]] 2).Pairwise (fun i j => i ≤ j) := by
  have hsel : selectSimilarity none [1] [[1], [1]] 2 = [1, 0] := by
    norm_num [selectSimilarity, computeSimilarities, dot, topByScore, np_argsort,
      argsortLe, List.insertionSort, List.orderedInsert]
  refine ⟨hsel, by norm_num [computeSimilarities, dot], ?_⟩
  rw [hsel]
  decide

/-! ### MMR with λ = 1 versus Similarity (C4)

With `diversity_lambda = 1` the MMR score reduces exactly to the
relevance (`1·rel − 0·red = rel`), so `_select_mmr` degenerates to
greedy repeated `np.argmax` over the remaining candidates — a selection
sort.  The two rankings agree whenever the scores are pairwise
distinct; on ties they differ (`np.argmax` prefers the lower index,
`np.argsort(...)[::-1]` the higher one). -/

/-- Greedy repeated first-argmax selection over a remaining-index list. -/
def selGreedy (s : List ℚ) : ℕ → List ℕ → List ℕ
  | 0, _ => []
  | _ + 1, [] => []
  | b + 1, r :: rs =>
      let rem := r :: rs
      let best := rem.getD (argmaxList (rem.map (fun i => s.getD i 0))) 0
      best :: selGreedy s b (rem.erase best)

lemma foldl_max_spec (l : List ℚ) (a : ℚ) :
    a ≤ l.foldl max a ∧ ∀ x ∈ l, x ≤ l.foldl max a := by
  induction l generalizing a with
  | nil => exact ⟨le_refl a, by simp⟩
  | cons y ys ih =>
      obtain ⟨h1, h2⟩ := ih (max a y)
      refine ⟨le_trans (le_max_left a y) h1, ?_⟩
      intro x hx
      rcases List.mem_cons.mp hx with rfl | hx
      · exact le_trans (le_max_right a x) h1
      · exact h2 x hx

lemma le_listMaxQ {l : List ℚ} {x : ℚ} (hx : x ∈ l) : x ≤ listMaxQ l := by
  cases l with
  | nil => cases hx
  | cons y ys =>
      rcases List.mem_cons.mp hx with rfl | hx
      · exact (foldl_max_spec ys x).1
      · exact (foldl_max_spec ys y).2 x hx

lemma argmaxList_lt {l : List ℚ} (h : l ≠ []) : argmaxList l < l.length := by
  induction l with
  | nil => exact absurd rfl h
  | cons x xs ih =>
      unfold argmaxList
      split
      · simp
      · split
        · simp
        · next hne _ =>
            have := ih hne
            simpa [Nat.add_comm 1 (argmaxList xs)] using Nat.succ_lt_succ this

lemma foldl_max_eq : ∀ (l : List ℚ), l ≠ [] → ∀ a : ℚ, l.foldl max a = max a (listMaxQ l) := by
  intro l
  induction l with
  | nil => intro h; exact absurd rfl h
  | cons y ys ih =>
      intro _ a
      show ys.foldl max (max a y) = max a (listMaxQ (y :: ys))
      by_cases hne : ys = []
      · subst hne
        simp [listMaxQ]
      · have hy : listMaxQ (y :: ys) = max y (listMaxQ ys) := by
          show ys.foldl max y = _
          rw [ih hne y]
        rw [ih hne (max a y), hy, max_assoc]

lemma listMaxQ_cons {xs : List ℚ} (x : ℚ) (h : xs ≠ []) :
    listMaxQ (x :: xs) = max x (listMaxQ xs) :=
  foldl_max_eq xs h x

lemma argmaxList_getD {l : List ℚ} (h : l ≠ []) :
    l.getD (argmaxList l) 0 = listMaxQ l := by
  induction l with
  | nil => exact absurd rfl h
  | cons x xs ih =>
      unfold argmaxList
      split
      · next hxs => subst hxs; rfl
      · next hxs =>
          split
          · next hle =>
              show x = listMaxQ (x :: xs)
              rw [listMaxQ_cons x hxs, max_eq_left hle]
          · next hlt =>
              push_neg at hlt
              rw [Nat.add_comm 1 (argmaxList xs)]
              show xs.getD (argmaxList xs) 0 = listMaxQ (x :: xs)
              rw [ih hxs, listMaxQ_cons x hxs, max_eq_right (le_of_lt hlt)]

lemma greedy_pick_spec (s : List ℚ) {rem : List ℕ} (h : rem ≠ []) :
    rem.getD (argmaxList (rem.map (fun i => s.getD i 0))) 0 ∈ rem ∧
    s.getD (rem.getD (argmaxList (rem.map (fun i => s.getD i 0))) 0) 0 =
      listMaxQ (rem.map (fun i => s.getD i 0)) := by
  have hmne : rem.map (fun i => s.getD i 0) ≠ [] := by
    simpa using h
  have hk : argmaxList (rem.map (fun i => s.getD i 0)) < rem.length := by
    have := argmaxList_lt hmne
    simpa using this
  constructor
  · rw [List.getD_eq_getElem _ _ hk]
    exact List.getElem_mem hk
  · have hkm : argmaxList (rem.map (fun i => s.getD i 0)) <
        (rem.map (fun i => s.getD i 0)).length := by
      simpa using hk
    have := argmaxList_getD hmne
    rw [List.getD_eq_getElem _ _ hkm, List.getElem_map] at this
    rw [List.getD_eq_getElem _ _ hk]
    exact this

lemma selGreedy_subset (s : List ℚ) (b : ℕ) (rem : List ℕ) :
    ∀ x ∈ selGreedy s b rem, x ∈ rem := by
  induction b generalizing rem with
  | zero => intro x hx; simp [selGreedy] at hx
  | succ n ih =>
      intro x hx
      cases rem with
      | nil => simp [selGreedy] at hx
      | cons r rs =>
          simp only [selGreedy] at hx
          rcases List.mem_cons.mp hx with rfl | hx
          · exact (greedy_pick_spec s (List.cons_ne_nil r rs)).1
          · exact List.mem_of_mem_erase (ih _ x hx)

lemma selGreedy_length (s : List ℚ) (b : ℕ) (rem : List ℕ) :
    (selGreedy s b rem).length = min b rem.length := by
  induction b generalizing rem with
  | zero => simp [selGreedy]
  | succ n ih =>
      cases rem with
      | nil => simp [selGreedy]
      | cons r rs =>
          have hmem := (greedy_pick_spec s (List.cons_ne_nil r rs)).1
          simp only [selGreedy, List.length_cons, ih]
          rw [List.length_erase_of_mem hmem]
          simp only [List.length_cons, Nat.add_sub_cancel]
          omega

lemma selGreedy_nodup (s : List ℚ) (b : ℕ) (rem : List ℕ) (h : rem.Nodup) :
    (selGreedy s b rem).Nodup := by
  induction b generalizing rem with
  | zero => simp [selGreedy]
  | succ n ih =>
      cases rem with
      | nil => simp [selGreedy]
      | cons r rs =>
          simp only [selGreedy, List.nodup_cons]
          refine ⟨?_, ih _ (h.erase _)⟩
          intro hmem
          have hin := selGreedy_subset s n _ _ hmem
          exact ((List.Nodup.mem_erase_iff h).mp hin).1 rfl

lemma selGreedy_perm (s : List ℚ) : ∀ (n : ℕ) (rem : List ℕ), rem.length = n →
    List.Perm (selGreedy s n rem) rem := by
  intro n
  induction n using Nat.strong_induction_on with
  | _ n ih =>
      intro rem hlen
      cases rem with
      | nil =>
          subst hlen
          simp [selGreedy]
      | cons r rs =>
          rw [List.length_cons] at hlen
          subst hlen
          have hpick := greedy_pick_spec s (List.cons_ne_nil r rs)
          simp only [selGreedy]
          have hlenerase : ((r :: rs).erase
              ((r :: rs).getD (argmaxList ((r :: rs).map (fun i => s.getD i 0))) 0)).length
              = rs.length := by
            rw [List.length_erase_of_mem hpick.1]
            simp
          have hrec := ih rs.length (Nat.lt_succ_self _) _ hlenerase
          exact (hrec.cons _).trans (List.perm_cons_erase hpick.1).symm

lemma selGreedy_take (s : List ℚ) : ∀ (n : ℕ) (rem : List ℕ), rem.length = n →
    ∀ b, selGreedy s b rem = (selGreedy s n rem).take b := by
  intro n
  induction n using Nat.strong_induction_on with
  | _ n ih =>
      intro rem hlen b
      cases rem with
      | nil =>
          subst hlen
          cases b <;> simp [selGreedy]
      | cons r rs =>
          rw [List.length_cons] at hlen
          subst hlen
          cases b with
          | zero => simp [selGreedy]
          | succ b' =>
              have hpick := greedy_pick_spec s (List.cons_ne_nil r rs)
              simp only [selGreedy, List.take_succ_cons]
              congr 1
              have hlenerase : ((r :: rs).erase
                  ((r :: rs).getD (argmaxList ((r :: rs).map (fun i => s.getD i 0))) 0)).length
                  = rs.length := by
                rw [List.length_erase_of_mem hpick.1]
                simp
              exact ih rs.length (Nat.lt_succ_self _) _ hlenerase b'

lemma selGreedy_sorted (s : List ℚ) (b : ℕ) (rem : List ℕ) (hnd : rem.Nodup)
    (hinj : ∀ i ∈ rem, ∀ j ∈ rem, s.getD i 0 = s.getD j 0 → i = j) :
    (selGreedy s b rem).Pairwise (fun i j => s.getD j 0 < s.getD i 0) := by
  induction b generalizing rem with
  | zero => simp [selGreedy]
  | succ n ih =>
      cases rem with
      | nil => simp [selGreedy]
      | cons r rs =>
          have hpick := greedy_pick_spec s (List.cons_ne_nil r rs)
          simp only [selGreedy, List.pairwise_cons]
          constructor
          · intro y hy
            have hyer := selGreedy_subset s n _ _ hy
            have hymem : y ∈ r :: rs := List.mem_of_mem_erase hyer
            have hle : s.getD y 0 ≤ s.getD
                ((r :: rs).getD (argmaxList ((r :: rs).map (fun i => s.getD i 0))) 0) 0 := by
              rw [hpick.2]
              exact le_listMaxQ (List.mem_map_of_mem _ hymem)
            rcases lt_or_eq_of_le hle with hlt | heq
            · exact hlt
            · exfalso
              have := hinj y hymem _ hpick.1 heq
              exact ((List.Nodup.mem_erase_iff hnd).mp (this ▸ hyer)).1 rfl
          · exact ih _ (hnd.erase _)
              (fun i hi j hj =>
                hinj i (List.mem_of_mem_erase hi) j (List.mem_of_mem_erase hj))

lemma mmrGo_one (s : List ℚ) (pw : ℕ → ℕ → ℚ) :
    ∀ (b : ℕ) (sel rem : List ℕ), mmrGo s pw 1 b sel rem = selGreedy s b rem := by
  intro b
  induction b with
  | zero => intro sel rem; rfl
  | succ n ih =>
      intro sel rem
      cases rem with
      | nil => rfl
      | cons r rs =>
          have harg : ((r :: rs).map
              (fun i => 1 * s.getD i 0 - (1 - 1) * redundancy pw i sel)) =
              (r :: rs).map (fun i => s.getD i 0) :=
            List.map_congr_left (fun a _ => by ring)
          cases sel with
          | nil => simp only [mmrGo, selGreedy, ih]
          | cons p ps => simp only [mmrGo, selGreedy, harg, ih]

lemma greedy_eq_reverse_argsort (s : List ℚ)
    (hinj : ∀ i < s.length, ∀ j < s.length, s.getD i 0 = s.getD j 0 → i = j) :
    selGreedy s s.length (List.range s.length) = (np_argsort s).reverse := by
  haveI : IsAntisymm ℕ (fun i j => s.getD j 0 < s.getD i 0) :=
    ⟨fun a b h1 h2 => absurd h1 (lt_asymm h2)⟩
  have hlenr : (List.range s.length).length = s.length := List.length_range _
  have hperm1 : List.Perm (selGreedy s s.length (List.range s.length))
      (List.range s.length) := selGreedy_perm s s.length _ hlenr
  have hperm2 : List.Perm ((np_argsort s).reverse) (List.range s.length) :=
    (List.reverse_perm _).trans (np_argsort_perm s)
  have hs1 : (selGreedy s s.length (List.range s.length)).Pairwise
      (fun i j => s.getD j 0 < s.getD i 0) :=
    selGreedy_sorted s _ _ (List.nodup_range _)
      (fun i hi j hj => hinj i (List.mem_range.mp hi) j (List.mem_range.mp hj))
  have hs2 : ((np_argsort s).reverse).Pairwise
      (fun i j => s.getD j 0 < s.getD i 0) := by
    refine List.Pairwise.imp_of_mem ?_ (reverse_argsort_pairwise s)
    intro a b ha hb hr
    have haN : a < s.length := np_argsort_mem.mp (List.mem_reverse.mp ha)
    have hbN : b < s.length := np_argsort_mem.mp (List.mem_reverse.mp hb)
    rcases hr with h | ⟨he, hba⟩
    · exact h
    · exact absurd (hinj a haN b hbN he) (Nat.ne_of_gt hba)
  exact List.eq_of_perm_of_sorted (hperm1.trans hperm2.symm) hs1 hs2

/-- C4 (amended): MMR with `diversityLambda = 1` returns the identical
ordered index list as Similarity (with `minScore` unset) whenever the
similarity scores are pairwise distinct.  (On ties the two differ:
`np.argmax` prefers the lower index, the reversed argsort the higher
one — see the counterexample.) -/
theorem C4_mmr_lambda_one (queryVec : List ℚ) (chunkVecs : List (List ℚ)) (budget : ℕ)
    (hinj : ∀ i < chunkVecs.length, ∀ j < chunkVecs.length,
      (computeSimilarities queryVec chunkVecs).getD i 0 =
        (computeSimilarities queryVec chunkVecs).getD j 0 → i = j) :
    selectMMR 1 queryVec chunkVecs budget =
      selectSimilarity none queryVec chunkVecs budget := by
  have hslen : (computeSimilarities queryVec chunkVecs).length = chunkVecs.length := by
    simp [computeSimilarities]
  unfold selectMMR selectSimilarity
  rw [mmrGo_one]
  have hlenr : (List.range chunkVecs.length).length = chunkVecs.length :=
    List.length_range _
  rw [selGreedy_take (computeSimilarities queryVec chunkVecs) chunkVecs.length
    (List.range chunkVecs.length) hlenr budget]
  have := greedy_eq_reverse_argsort (computeSimilarities queryVec chunkVecs)
    (by rw [hslen]; exact hinj)
  rw [hslen] at this
  rw [this]
  rfl

/-- Witness for C4 at query `[1]`, candidates `[[2],[1]]` (distinct
scores 2 and 1), budget 2: both strategies return `[0, 1]`. -/
theorem C4_mmr_lambda_one_witness :
    (∀ i < 2, ∀ j < 2,
      (computeSimilarities [1] [[2], [1]]).getD i 0 =
        (computeSimilarities [1] [[2], [1]]).getD j 0 → i = j) ∧
    selectMMR 1 [1] [[2], [1]] 2 = selectSimilarity none [1] [[2], [1]] 2 := by
  have hs : computeSimilarities [1] [[2], [1]] = [2, 1] := by
    norm_num [computeSimilarities, dot]
  have hinj : ∀ i < 2, ∀ j < 2,
      (computeSimilarities [1] [[2], [1]]).getD i 0 =
        (computeSimilarities [1] [[2], [1]]).getD j 0 → i = j := by
    rw [hs]
    decide
  exact ⟨hinj, C4_mmr_lambda_one [1] [[2], [1]] 2 (by

    show ∀ i < ([[2], [1]] : List (List ℚ)).length, _
    simpa using hinj)⟩

/-- Counterexample for C4 as frozen: on two candidates with equal
scores, MMR with λ = 1 returns `[0, 1]` while Similarity returns
`[1, 0]`. -/
theorem C4_counterexample :
    selectMMR 1 [1] [[1], [1]] 2 = [0, 1] ∧
    selectSimilarity none [1] [[1], [1]] 2 = [1, 0] ∧
    selectMMR 1 [1] [[1], [1]] 2 ≠ selectSimilarity none [1] [[1], [1]] 2 := by
  have h1 : selectMMR 1 [1] [[1], [1]] 2 = [0, 1] := by
    norm_num [selectMMR, mmrGo, computeSimilarities, dot, argmaxList, listMaxQ,
      redundancy, List.erase]
  have h2 : selectSimilarity none [1] [[1], [1]] 2 = [1, 0] := by
    norm_num [selectSimilarity, computeSimilarities, dot, topByScore, np_argsort,
      argsortLe, List.insertionSort, List.orderedInsert]
  refine ⟨h1, h2, ?_⟩
  rw [h1, h2]
  decide

/-! ### Correctness of the without-replacement sampler (C1, C5) -/

lemma cumsumGo_length (acc : ℝ) (l : List ℝ) : (cumsumGo acc l).length = l.length := by
  induction l generalizing acc with
  | nil => rfl
  | cons x xs ih => simp [cumsumGo, ih]

lemma cumsumGo_ge (acc : ℝ) (l : List ℝ) (hl : ∀ x ∈ l, 0 ≤ x) :
    ∀ c ∈ cumsumGo acc l, acc ≤ c := by
  induction l generalizing acc with
  | nil => intro c hc; cases hc
  | cons x xs ih =>
      intro c hc
      have hx : 0 ≤ x := hl x (List.mem_cons_self x xs)
      rcases List.mem_cons.mp hc with rfl | hc
      · linarith
      · have := ih (acc + x) (fun y hy => hl y (List.mem_cons_of_mem x hy)) c hc
        linarith

lemma cumsumGo_getLastD (acc : ℝ) (l : List ℝ) :
    (cumsumGo acc l).getLastD acc = acc + l.sum := by
  induction l generalizing acc with
  | nil => simp [cumsumGo]
  | cons x xs ih =>
      show ((acc + x) :: cumsumGo (acc + x) xs).getLastD acc = acc + (x :: xs).sum
      rw [List.getLastD_cons, ih (acc + x), List.sum_cons]
      ring

lemma cumsum_getLastD (l : List ℝ) : (cumsum l).getLastD 0 = l.sum := by
  cases l with
  | nil => simp [cumsum, cumsumGo]
  | cons x xs =>
      show ((0 + x) :: cumsumGo (0 + x) xs).getLastD 0 = (x :: xs).sum
      rw [List.getLastD_cons]
      have := cumsumGo_getLastD (0 + x) xs
      rw [this]
      simp [List.sum_cons]

/-- The inverse-CDF pick: on a running partial-sum list of nonnegative
increments starting at `acc`, `searchsorted right` of a value `v` with
`acc ≤ v < acc + sum` lands strictly inside the list, on an increment
that is strictly positive. -/
lemma countP_cumsumGo_spec (v : ℝ) : ∀ (l : List ℝ) (acc : ℝ), (∀ x ∈ l, 0 ≤ x) →
    acc ≤ v → v < acc + l.sum →
    (cumsumGo acc l).countP (fun c => decide (c ≤ v)) < l.length ∧
    0 < l.getD ((cumsumGo acc l).countP (fun c => decide (c ≤ v))) 0 := by
  intro l
  induction l with
  | nil =>
      intro acc _ hle hlt
      rw [List.sum_nil, add_zero] at hlt
      exact absurd hle (not_le.mpr hlt)
  | cons x xs ih =>
      intro acc hnn hle hlt
      show ((acc + x) :: cumsumGo (acc + x) xs).countP _ < _ ∧
        0 < (x :: xs).getD (((acc + x) :: cumsumGo (acc + x) xs).countP _) 0
      rw [List.countP_cons]
      by_cases hc : acc + x ≤ v
      · have hsum : v < (acc + x) + xs.sum := by
          rw [List.sum_cons] at hlt
          linarith
        obtain ⟨ih1, ih2⟩ := ih (acc + x)
          (fun y hy => hnn y (List.mem_cons_of_mem x hy)) hc hsum
        rw [if_pos (by simpa using hc)]
        constructor
        · simpa [Nat.add_lt_add_iff_right] using ih1
        · simpa using ih2
      · have hzero : (cumsumGo (acc + x) xs).countP (fun c => decide (c ≤ v)) = 0 := by
          refine List.countP_eq_zero.mpr ?_
          intro c hcmem
          have hge : acc + x ≤ c := cumsumGo_ge (acc + x) xs
            (fun y hy => hnn y (List.mem_cons_of_mem x hy)) c hcmem
          simp only [decide_eq_true_eq]
          push_neg at hc
          intro habs
          linarith
        rw [hzero, if_neg (by simpa using hc)]
        push_neg at hc
        refine ⟨Nat.succ_pos _, ?_⟩
        show (0 : ℝ) < x
        linarith

lemma searchsorted_div (cdf : List ℝ) (S u : ℝ) (hS : 0 < S) :
    searchsortedRight (cdf.map (fun c => c / S)) u =
      cdf.countP (fun c => decide (c ≤ u * S)) := by
  unfold searchsortedRight
  rw [List.countP_map]
  apply List.countP_congr
  intro c _
  simp only [Function.comp, decide_eq_true_eq]
  exact ⟨fun h => (div_le_iff₀ hS).mp h, fun h => (div_le_iff₀ hS).mpr h⟩

lemma zeroAt_length (p : List ℝ) (found : List ℕ) :
    (zeroAt p found).length = p.length := by
  simp [zeroAt]

lemma zeroAt_getD (p : List ℝ) (found : List ℕ) {i : ℕ} (hi : i < p.length) :
    (zeroAt p found).getD i 0 = if i ∈ found then 0 else p.getD i 0 := by
  have hi' : i < (zeroAt p found).length := by rwa [zeroAt_length]
  rw [List.getD_eq_getElem _ _ hi']
  simp [zeroAt]

lemma zeroAt_nonneg (p : List ℝ) (found : List ℕ)
    (hp : ∀ i < p.length, 0 < p.getD i 0) : ∀ x ∈ zeroAt p found, 0 ≤ x := by
  intro x hx
  obtain ⟨i, hir, hieq⟩ := List.mem_map.mp hx
  have hi : i < p.length := List.mem_range.mp hir
  rw [← hieq]
  split
  · exact le_refl 0
  · exact le_of_lt (hp i hi)

lemma zeroAt_sum_pos (p : List ℝ) (found : List ℕ)
    (hp : ∀ i < p.length, 0 < p.getD i 0)
    (hex : ∃ j < p.length, j ∉ found) : 0 < (zeroAt p found).sum := by
  obtain ⟨j, hj, hjf⟩ := hex
  have hjlen : j < (zeroAt p found).length := by rwa [zeroAt_length]
  have hmem : (zeroAt p found).getD j 0 ∈ zeroAt p found := by
    rw [List.getD_eq_getElem _ _ hjlen]
    exact List.getElem_mem hjlen
  have hval : (zeroAt p found).getD j 0 = p.getD j 0 := by
    rw [zeroAt_getD p found hj, if_neg hjf]
  have := List.single_le_sum (zeroAt_nonneg p found hp) _ hmem
  rw [hval] at this
  exact lt_of_lt_of_le (hp j hj) this

lemma firstDedupGo_sublist (seen : List ℕ) : ∀ l, List.Sublist (firstDedupGo seen l) l := by
  intro l
  induction l generalizing seen with
  | nil => exact List.Sublist.refl []
  | cons x xs ih =>
      show (if x ∈ seen then firstDedupGo seen xs else x :: firstDedupGo (x :: seen) xs).Sublist
        (x :: xs)
      split
      · exact (ih seen).cons x
      · exact (ih (x :: seen)).cons₂ x

lemma firstDedupGo_spec (l : List ℕ) : ∀ seen,
    (∀ x ∈ firstDedupGo seen l, x ∉ seen) ∧ (firstDedupGo seen l).Nodup := by
  induction l with
  | nil => exact fun seen => ⟨fun x hx => absurd hx (List.not_mem_nil x), List.nodup_nil⟩
  | cons x xs ih =>
      intro seen
      show (∀ y ∈ (if x ∈ seen then firstDedupGo seen xs else
        x :: firstDedupGo (x :: seen) xs), y ∉ seen) ∧
        (if x ∈ seen then firstDedupGo seen xs else
          x :: firstDedupGo (x :: seen) xs).Nodup
      split
      · exact ih seen
      · next hxs =>
          obtain ⟨h1, h2⟩ := ih (x :: seen)
          constructor
          · intro y hy
            rcases List.mem_cons.mp hy with rfl | hy
            · exact hxs
            · exact fun hc => h1 y hy (List.mem_cons_of_mem x hc)
          · rw [List.nodup_cons]
            exact ⟨fun hc => h1 x hc (List.mem_cons_self x seen), h2⟩

lemma firstDedup_nodup (l : List ℕ) : (firstDedup l).Nodup :=
  (firstDedupGo_spec l []).2

lemma firstDedup_sublist (l : List ℕ) : List.Sublist (firstDedup l) l :=
  firstDedupGo_sublist [] l

lemma firstDedup_ne_nil {l : List ℕ} (h : l ≠ []) : firstDedup l ≠ [] := by
  cases l with
  | nil => exact absurd rfl h
  | cons x xs =>
      show (if x ∈ ([] : List ℕ) then firstDedupGo [] xs else
        x :: firstDedupGo [x] xs) ≠ []
      rw [if_neg (List.not_mem_nil x)]
      exact List.cons_ne_nil _ _

lemma nodup_subset_length {l1 l2 : List ℕ} (h1 : l1.Nodup) (hs : l1 ⊆ l2) :
    l1.length ≤ l2.length := by
  classical
  calc l1.length = l1.toFinset.card := (List.toFinset_card_of_nodup h1).symm
    _ ≤ l2.toFinset.card := Finset.card_le_card (fun a ha => by
        rw [List.mem_toFinset] at ha ⊢
        exact hs ha)
    _ ≤ l2.length := l2.toFinset_card_le

lemma npChoiceLoop_zero (p : List ℝ) (size : ℕ) (rng : ℕ → ℚ) (pos : ℕ)
    (found : List ℕ) : npChoiceLoop p size rng 0 pos found = found := rfl

lemma npChoiceLoop_succ (p : List ℝ) (size : ℕ) (rng : ℕ → ℚ) (n pos : ℕ)
    (found : List ℕ) :
    npChoiceLoop p size rng (n + 1) pos found =
      if found.length < size then
        npChoiceLoop p size rng n (pos + (size - found.length))
          (found ++ firstDedup (((List.range (size - found.length)).map
            (fun j => ((rng (pos + j) : ℚ) : ℝ))).map
            (fun u => searchsortedRight ((cumsum (zeroAt p found)).map
              (fun c => c / (cumsum (zeroAt p found)).getLastD 0)) u)))
      else found := rfl

/-- The single-pick correctness fact: with every probability positive
and `found` a strict subset of the index range, `searchsorted` of any
uniform `u ∈ [0,1)` against the renormalized cumulative distribution of
the zeroed probability vector yields an in-range index that is not yet
in `found`. -/
lemma pick_spec (p : List ℝ) (found : List ℕ)
    (hp : ∀ i < p.length, 0 < p.getD i 0)
    (hex : ∃ j < p.length, j ∉ found) (u : ℝ) (hu0 : 0 ≤ u) (hu1 : u < 1) :
    searchsortedRight ((cumsum (zeroAt p found)).map
      (fun c => c / (cumsum (zeroAt p found)).getLastD 0)) u < p.length ∧
    searchsortedRight ((cumsum (zeroAt p found)).map
      (fun c => c / (cumsum (zeroAt p found)).getLastD 0)) u ∉ found := by
  set pz := zeroAt p found with hpz
  have hS : (cumsum pz).getLastD 0 = pz.sum := cumsum_getLastD pz
  have hSpos : 0 < pz.sum := zeroAt_sum_pos p found hp hex
  have hnn : ∀ x ∈ pz, 0 ≤ x := zeroAt_nonneg p found hp
  rw [hS, searchsorted_div _ _ _ hSpos]
  have hmaster := countP_cumsumGo_spec (u * pz.sum) pz 0 hnn
    (mul_nonneg hu0 (le_of_lt hSpos))
    (by
      rw [zero_add]
      calc u * pz.sum < 1 * pz.sum := by
            exact mul_lt_mul_of_pos_right hu1 hSpos
        _ = pz.sum := one_mul _)
  obtain ⟨h1, h2⟩ := hmaster
  have hlen : pz.length = p.length := zeroAt_length p found
  constructor
  · show (cumsumGo 0 pz).countP _ < p.length
    rw [← hlen]
    exact h1
  · intro hmem
    simp only [cumsum] at hmem
    have hplen : (cumsumGo 0 pz).countP (fun c => decide (c ≤ u * pz.sum)) < p.length := by
      rw [← hlen]; exact h1
    have := zeroAt_getD p found hplen
    rw [← hpz, if_pos hmem] at this
    rw [this] at h2
    exact lt_irrefl 0 h2

/-- Invariant of the `np.random.choice` while-loop: each round appends
at least one fresh in-range index and at most `size − n_uniq` of them,
so with `size` rounds of fuel the loop returns exactly `size` distinct
in-range indices. -/
lemma npChoiceLoop_spec (p : List ℝ) (size : ℕ) (rng : ℕ → ℚ)
    (hp : ∀ i < p.length, 0 < p.getD i 0)
    (hrng : ∀ k, 0 ≤ rng k ∧ rng k < 1)
    (hsize : size ≤ p.length) :
    ∀ (fuel pos : ℕ) (found : List ℕ), found.Nodup → (∀ i ∈ found, i < p.length) →
      found.length ≤ size → size - found.length ≤ fuel →
      (npChoiceLoop p size rng fuel pos found).length = size ∧
      (npChoiceLoop p size rng fuel pos found).Nodup ∧
      (∀ i ∈ npChoiceLoop p size rng fuel pos found, i < p.length) := by
  intro fuel
  induction fuel with
  | zero =>
      intro pos found hnd hb hlen hfuel
      have heq : found.length = size := by omega
      rw [npChoiceLoop_zero]
      exact ⟨heq, hnd, hb⟩
  | succ n ih =>
      intro pos found hnd hb hlen hfuel
      rw [npChoiceLoop_succ]
      by_cases hlt : found.length < size
      · rw [if_pos hlt]
        have hex : ∃ j < p.length, j ∉ found := by
          by_contra hall
          push_neg at hall
          have hsub : List.range p.length ⊆ found := by
            intro j hj
            exact hall j (List.mem_range.mp hj)
          have := nodup_subset_length (List.nodup_range p.length) hsub
          rw [List.length_range] at this
          omega
        set draws := (List.range (size - found.length)).map
          (fun j => ((rng (pos + j) : ℚ) : ℝ)) with hdraws
        set new := draws.map
          (fun u => searchsortedRight ((cumsum (zeroAt p found)).map
            (fun c => c / (cumsum (zeroAt p found)).getLastD 0)) u) with hnew
        have hnewmem : ∀ x ∈ new, x < p.length ∧ x ∉ found := by
          intro x hx
          obtain ⟨u, hu, hux⟩ := List.mem_map.mp hx
          obtain ⟨j, _, huj⟩ := List.mem_map.mp hu
          have h0 := (hrng (pos + j)).1
          have h1 := (hrng (pos + j)).2
          have hu0 : (0 : ℝ) ≤ u := by
            rw [← huj]
            exact_mod_cast h0
          have hu1 : u < 1 := by
            rw [← huj]
            exact_mod_cast h1
          rw [← hux]
          exact pick_spec p found hp hex u hu0 hu1
        have hdlen : draws.length = size - found.length := by
          rw [hdraws, List.length_map, List.length_range]
        have hdne : draws ≠ [] := by
          rw [hdraws]
          simp only [ne_eq, List.map_eq_nil_iff, List.range_eq_nil]
          omega
        have hnne : new ≠ [] := by
          rw [hnew]
          simp only [ne_eq, List.map_eq_nil_iff]
          exact hdne
        have huniq_sub : firstDedup new ⊆ new := (firstDedup_sublist new).subset
        have huniq_len : (firstDedup new).length ≤ size - found.length := by
          calc (firstDedup new).length ≤ new.length :=
                (firstDedup_sublist new).length_le
            _ = draws.length := List.length_map _ _
            _ = size - found.length := hdlen
        have huniq_ne : firstDedup new ≠ [] := firstDedup_ne_nil hnne
        have huniq_pos : 1 ≤ (firstDedup new).length :=
          List.length_pos.mpr huniq_ne
        have hnd' : (found ++ firstDedup new).Nodup := by
          refine hnd.append (firstDedup_nodup new) ?_
          intro a ha hau
          exact (hnewmem a (huniq_sub hau)).2 ha
        have hb' : ∀ i ∈ found ++ firstDedup new, i < p.length := by
          intro i hi
          rcases List.mem_append.mp hi with h | h
          · exact hb i h
          · exact (hnewmem i (huniq_sub h)).1
        have hlen' : (found ++ firstDedup new).length ≤ size := by
          rw [List.length_append]
          omega
        have hfuel' : size - (found ++ firstDedup new).length ≤ n := by
          rw [List.length_append]
          omega
        exact ih (pos + (size - found.length)) (found ++ firstDedup new)
          hnd' hb' hlen' hfuel'
      · rw [if_neg hlt]
        have : found.length = size := by omega
        exact ⟨this, hnd, hb⟩

lemma softmax_length (T : ℚ) (scores : List ℚ) :
    (softmax T scores).length = scores.length := by
  simp [softmax]

lemma softmax_pos (T : ℚ) (scores : List ℚ) :
    ∀ i < (softmax T scores).length, 0 < (softmax T scores).getD i 0 := by
  intro i hi
  rw [softmax_length] at hi
  unfold softmax
  set scaled : List ℝ := scores.map (fun s : ℚ => ((s : ℝ) / (T : ℝ) : ℝ)) with hscaled
  set exps := scaled.map (fun x => Real.exp (x - listMaxR scaled)) with hexps
  have hexlen : exps.length = scores.length := by
    rw [hexps, List.length_map, hscaled, List.length_map]
  have hexpos : ∀ x ∈ exps, 0 < x := by
    intro x hx
    obtain ⟨y, _, hy⟩ := List.mem_map.mp hx
    rw [← hy]
    exact Real.exp_pos _
  have hexne : exps ≠ [] := by
    intro h
    rw [h] at hexlen
    simp only [List.length_nil] at hexlen
    omega
  have hsum : 0 < exps.sum := List.sum_pos exps hexpos hexne
  have hilen : i < (exps.map (fun e => e / exps.sum)).length := by
    rw [List.length_map, hexlen]
    exact hi
  rw [List.getD_eq_getElem _ _ hilen, List.getElem_map]
  exact div_pos (hexpos _ (List.getElem_mem _)) hsum

lemma selectUncertainty_spec (T : ℚ) (queryVec : List ℚ) (chunkVecs : List (List ℚ))
    (b : ℕ) (rng : ℕ → ℚ) (hb : b ≤ chunkVecs.length)
    (hrng : ∀ k, 0 ≤ rng k ∧ rng k < 1) :
    (selectUncertainty T queryVec chunkVecs b rng).length = b ∧
    (selectUncertainty T queryVec chunkVecs b rng).Nodup ∧
    (∀ i ∈ selectUncertainty T queryVec chunkVecs b rng, i < chunkVecs.length) := by
  unfold selectUncertainty npChoiceNoReplace
  set p := softmax T (computeSimilarities queryVec chunkVecs) with hp
  have hplen : p.length = chunkVecs.length := by
    rw [hp, softmax_length]
    simp [computeSimilarities]
  have hpos : ∀ i < p.length, 0 < p.getD i 0 := by
    intro i hi
    rw [hp]
    exact softmax_pos T _ i (by rwa [← hp])
  have := npChoiceLoop_spec p b rng hpos hrng (by omega) b 0 []
    List.nodup_nil (by simp) (by simp) (by simp)
  refine ⟨this.1, this.2.1, fun i hi => ?_⟩
  rw [← hplen]
  exact this.2.2 i hi

/-- C5 (amended): `_select_uncertainty` draws its `budget` distinct
indices without replacement from the temperature-scaled softmax
distribution using the *ambient global* numpy generator (the function
takes no random-source parameter); two selection calls made with the
global generator in identical states and the same inputs return
identical index lists, and each call returns `budget` distinct in-range
indices. -/
theorem C5_uncertainty_rng (T : ℚ) (queryVec : List ℚ) (chunkVecs : List (List ℚ))
    (b : ℕ) (rng rng' : ℕ → ℚ) (heq : ∀ k, rng k = rng' k)
    (hb : b ≤ chunkVecs.length) (hrng : ∀ k, 0 ≤ rng k ∧ rng k < 1) :
    selectUncertainty T queryVec chunkVecs b rng =
      selectUncertainty T queryVec chunkVecs b rng' ∧
    (selectUncertainty T queryVec chunkVecs b rng).Nodup ∧
    (selectUncertainty T queryVec chunkVecs b rng).length = b := by
  have hfun : rng = rng' := funext heq
  obtain ⟨h1, h2, _⟩ := selectUncertainty_spec T queryVec chunkVecs b rng hb hrng
  exact ⟨by rw [hfun], h2, h1⟩

/-- Witness for C5 at temperature 1, query `[1]`, candidates
`[[0],[0]]`, budget 1, both generator states pending the draw 0. -/
theorem C5_uncertainty_rng_witness :
    ((1 : ℕ) ≤ 2 ∧ (∀ k : ℕ, (fun _ : ℕ => (0 : ℚ)) k = (fun _ : ℕ => (0 : ℚ)) k) ∧
      (∀ k : ℕ, 0 ≤ (fun _ : ℕ => (0 : ℚ)) k ∧ (fun _ : ℕ => (0 : ℚ)) k < 1)) ∧
    (selectUncertainty 1 [1] [[0], [0]] 1 (fun _ => 0) =
      selectUncertainty 1 [1] [[0], [0]] 1 (fun _ => 0) ∧
    (selectUncertainty 1 [1] [[0], [0]] 1 (fun _ => 0)).Nodup ∧
    (selectUncertainty 1 [1] [[0], [0]] 1 (fun _ => 0)).length = 1) :=
  ⟨⟨by decide, fun _ => rfl, fun _ => by constructor <;> norm_num⟩,
    C5_uncertainty_rng 1 [1] [[0], [0]] 1 (fun _ => 0) (fun _ => 0)
      (fun _ => rfl) (by decide) (fun _ => by constructor <;> norm_num)⟩

/-- Counterexample for C5 as frozen: the selection *does* read the
ambient generator state — no injected random source exists — so two
runs on the same inputs with different pending global draws (0 versus
1/2) return different index lists. -/
theorem C5_counterexample :
    selectUncertainty 1 [1] [[0], [0]] 1 (fun _ => 0) = [0] ∧
    selectUncertainty 1 [1] [[0], [0]] 1 (fun _ => 1/2) = [1] ∧
    selectUncertainty 1 [1] [[0], [0]] 1 (fun _ => 0) ≠
      selectUncertainty 1 [1] [[0], [0]] 1 (fun _ => 1/2) := by
  have hcs : computeSimilarities [1] [[0], [0]] = [0, 0] := by
    norm_num [computeSimilarities, dot]
  have hsm : softmax 1 (computeSimilarities [1] [[0], [0]]) = [(1:ℝ)/2, 1/2] := by
    rw [hcs]
    norm_num [softmax, listMaxR, Real.exp_zero]
  have h1 : selectUncertainty 1 [1] [[0], [0]] 1 (fun _ => 0) = [0] := by
    rw [selectUncertainty, hsm, npChoiceNoReplace]
    rw [show (npChoiceLoop [(1:ℝ)/2, 1/2] 1 (fun _ => 0) 1 0 [] : List ℕ) =
      npChoiceLoop [(1:ℝ)/2, 1/2] 1 (fun _ => 0) (0+1) 0 [] from rfl]
    rw [npChoiceLoop_succ]
    norm_num [zeroAt, List.range_succ, cumsum, cumsumGo, searchsortedRight,
      List.countP_cons, List.countP_nil, firstDedup, firstDedupGo, npChoiceLoop_zero]
  have h2 : selectUncertainty 1 [1] [[0], [0]] 1 (fun _ => 1/2) = [1] := by
    rw [selectUncertainty, hsm, npChoiceNoReplace]
    rw [show (npChoiceLoop [(1:ℝ)/2, 1/2] 1 (fun _ => 1/2) 1 0 [] : List ℕ) =
      npChoiceLoop [(1:ℝ)/2, 1/2] 1 (fun _ => 1/2) (0+1) 0 [] from rfl]
    rw [npChoiceLoop_succ]
    norm_num [zeroAt, List.range_succ, cumsum, cumsumGo, searchsortedRight,
      List.countP_cons, List.countP_nil, firstDedup, firstDedupGo, npChoiceLoop_zero]
  refine ⟨h1, h2, ?_⟩
  rw [h1, h2]
  decide

/-! ### Result-shape facts for every strategy (C1) -/

lemma argmax_pick_mem (f : ℕ → ℚ) {rem : List ℕ} (h : rem ≠ []) :
    rem.getD (argmaxList (rem.map f)) 0 ∈ rem := by
  have hmne : rem.map f ≠ [] := by simpa using h
  have hk : argmaxList (rem.map f) < rem.length := by
    have := argmaxList_lt hmne
    simpa using this
  rw [List.getD_eq_getElem _ _ hk]
  exact List.getElem_mem hk

lemma mmrGo_subset (s : List ℚ) (pw : ℕ → ℕ → ℚ) (lam : ℚ) :
    ∀ (b : ℕ) (sel rem : List ℕ), ∀ x ∈ mmrGo s pw lam b sel rem, x ∈ rem := by
  intro b
  induction b with
  | zero => intro sel rem x hx; simp [mmrGo] at hx
  | succ n ih =>
      intro sel rem x hx
      cases rem with
      | nil => simp [mmrGo] at hx
      | cons r rs =>
          cases sel with
          | nil =>
              simp only [mmrGo] at hx
              rcases List.mem_cons.mp hx with rfl | hx
              · exact argmax_pick_mem _ (List.cons_ne_nil r rs)
              · exact List.mem_of_mem_erase (ih _ _ x hx)
          | cons p ps =>
              simp only [mmrGo] at hx
              rcases List.mem_cons.mp hx with rfl | hx
              · exact argmax_pick_mem _ (List.cons_ne_nil r rs)
              · exact List.mem_of_mem_erase (ih _ _ x hx)

lemma mmrGo_length (s : List ℚ) (pw : ℕ → ℕ → ℚ) (lam : ℚ) :
    ∀ (b : ℕ) (sel rem : List ℕ),
      (mmrGo s pw lam b sel rem).length = min b rem.length := by
  intro b
  induction b with
  | zero => intro sel rem; simp [mmrGo]
  | succ n ih =>
      intro sel rem
      cases rem with
      | nil => simp [mmrGo]
      | cons r rs =>
          have hpick1 : (r :: rs).getD
              (argmaxList ((r :: rs).map (fun i => s.getD i 0))) 0 ∈ r :: rs :=
            argmax_pick_mem _ (List.cons_ne_nil r rs)
          have hpick2 : (r :: rs).getD
              (argmaxList ((r :: rs).map
                (fun i => lam * s.getD i 0 - (1 - lam) * redundancy pw i sel))) 0
              ∈ r :: rs :=
            argmax_pick_mem _ (List.cons_ne_nil r rs)
          cases sel with
          | nil =>
              simp only [mmrGo, List.length_cons, ih]
              rw [List.length_erase_of_mem hpick1]
              simp only [List.length_cons, Nat.add_sub_cancel]
              omega
          | cons p ps =>
              simp only [mmrGo, List.length_cons, ih]
              rw [List.length_erase_of_mem hpick2]
              simp only [List.length_cons, Nat.add_sub_cancel]
              omega

lemma mmrGo_nodup (s : List ℚ) (pw : ℕ → ℕ → ℚ) (lam : ℚ) :
    ∀ (b : ℕ) (sel rem : List ℕ), rem.Nodup → (mmrGo s pw lam b sel rem).Nodup := by
  intro b
  induction b with
  | zero => intro sel rem _; simp [mmrGo]
  | succ n ih =>
      intro sel rem hnd
      cases rem with
      | nil => simp [mmrGo]
      | cons r rs =>
          cases sel with
          | nil =>
              simp only [mmrGo, List.nodup_cons]
              refine ⟨?_, ih _ _ (hnd.erase _)⟩
              intro hmem
              have hin := mmrGo_subset s pw lam n _ _ _ hmem
              exact ((List.Nodup.mem_erase_iff hnd).mp hin).1 rfl
          | cons p ps =>
              simp only [mmrGo, List.nodup_cons]
              refine ⟨?_, ih _ _ (hnd.erase _)⟩
              intro hmem
              have hin := mmrGo_subset s pw lam n _ _ _ hmem
              exact ((List.Nodup.mem_erase_iff hnd).mp hin).1 rfl

lemma rankWithin_spec (valid : List ℕ) (scores : List ℚ) (b : ℕ)
    (hnd : valid.Nodup) :
    (rankWithin valid scores b).length = min b valid.length ∧
    (rankWithin valid scores b).Nodup ∧
    (∀ x ∈ rankWithin valid scores b, x ∈ valid) := by
  unfold rankWithin
  have hvslen : (valid.map (fun i => scores.getD i 0)).length = valid.length :=
    List.length_map _ _
  refine ⟨?_, ?_, ?_⟩
  · rw [List.length_map, topByScore_length, hvslen]
  · refine List.Nodup.map_on ?_ (topByScore_nodup _ b)
    intro x hx y hy hxy
    have hxl : x < valid.length := by
      rw [← hvslen]
      exact topByScore_mem hx
    have hyl : y < valid.length := by
      rw [← hvslen]
      exact topByScore_mem hy
    rw [List.getD_eq_getElem _ _ hxl, List.getD_eq_getElem _ _ hyl] at hxy
    exact hnd.getElem_inj_iff.mp hxy
  · intro x hx
    obtain ⟨pos, hpos, hpx⟩ := List.mem_map.mp hx
    have hpl : pos < valid.length := by
      rw [← hvslen]
      exact topByScore_mem hpos
    rw [← hpx, List.getD_eq_getElem _ _ hpl]
    exact List.getElem_mem hpl

lemma selectSimilarity_none_spec (queryVec : List ℚ) (chunkVecs : List (List ℚ))
    (b : ℕ) :
    (selectSimilarity none queryVec chunkVecs b).length = min b chunkVecs.length ∧
    (selectSimilarity none queryVec chunkVecs b).Nodup ∧
    (∀ x ∈ selectSimilarity none queryVec chunkVecs b, x < chunkVecs.length) := by
  have hslen : (computeSimilarities queryVec chunkVecs).length = chunkVecs.length := by
    simp [computeSimilarities]
  refine ⟨?_, topByScore_nodup _ b, ?_⟩
  · show (topByScore _ b).length = _
    rw [topByScore_length, hslen]
  · intro x hx
    have := topByScore_mem hx
    rwa [hslen] at this

lemma selectSimilarity_some_eq (m : ℚ) (queryVec : List ℚ)
    (chunkVecs : List (List ℚ)) (b : ℕ) :
    selectSimilarity (some m) queryVec chunkVecs b =
      if ((List.range chunkVecs.length).filter
        (fun i => m ≤ (computeSimilarities queryVec chunkVecs).getD i 0)) = [] then []
      else rankWithin
        ((List.range chunkVecs.length).filter
          (fun i => m ≤ (computeSimilarities queryVec chunkVecs).getD i 0))
        (computeSimilarities queryVec chunkVecs) b := rfl

lemma selectSimilarity_some_spec (m : ℚ) (queryVec : List ℚ)
    (chunkVecs : List (List ℚ)) (b : ℕ) :
    (selectSimilarity (some m) queryVec chunkVecs b).length ≤ min b chunkVecs.length ∧
    (selectSimilarity (some m) queryVec chunkVecs b).Nodup ∧
    (∀ x ∈ selectSimilarity (some m) queryVec chunkVecs b, x < chunkVecs.length) := by
  rw [selectSimilarity_some_eq]
  set valid := (List.range chunkVecs.length).filter
    (fun i => m ≤ (computeSimilarities queryVec chunkVecs).getD i 0) with hvalid
  have hnd : valid.Nodup := (List.nodup_range _).filter _
  have hsub : ∀ x ∈ valid, x < chunkVecs.length := by
    intro x hx
    exact List.mem_range.mp (List.mem_of_mem_filter hx)
  have hvlen : valid.length ≤ chunkVecs.length := by
    have := List.length_filter_le
      (fun i => decide (m ≤ (computeSimilarities queryVec chunkVecs).getD i 0))
      (List.range chunkVecs.length)
    simpa [hvalid] using this
  by_cases hv : valid = []
  · rw [if_pos hv]
    exact ⟨by simp, List.nodup_nil, by simp⟩
  · rw [if_neg hv]
    obtain ⟨h1, h2, h3⟩ := rankWithin_spec valid (computeSimilarities queryVec chunkVecs)
      b hnd
    exact ⟨by rw [h1]; omega, h2, fun x hx => hsub x (h3 x hx)⟩

lemma selectAdaptive_spec (pct : ℚ) (queryVec : List ℚ) (chunkVecs : List (List ℚ))
    (b : ℕ) (hne : chunkVecs ≠ []) (hb : 0 < b) :
    1 ≤ (selectAdaptive pct queryVec chunkVecs b).length ∧
    (selectAdaptive pct queryVec chunkVecs b).length ≤ min b chunkVecs.length ∧
    (selectAdaptive pct queryVec chunkVecs b).Nodup ∧
    (∀ x ∈ selectAdaptive pct queryVec chunkVecs b, x < chunkVecs.length) := by
  have hN : 0 < chunkVecs.length := List.length_pos.mpr hne
  have hsne : (computeSimilarities queryVec chunkVecs).map (fun x => x) ≠ [] := by
    simpa [computeSimilarities] using hne
  have hsimne : computeSimilarities queryVec chunkVecs ≠ [] := by
    simp [computeSimilarities]
    exact hne
  set sims := computeSimilarities queryVec chunkVecs with hsims
  have hsimlen : sims.length = chunkVecs.length := by
    simp [hsims, computeSimilarities]
  set valid := (List.range chunkVecs.length).filter
    (fun i => np_percentile sims pct ≤ sims.getD i 0) with hvalid
  have heq : selectAdaptive pct queryVec chunkVecs b =
      if valid = [] then [argmaxList sims] else rankWithin valid sims b := rfl
  rw [heq]
  have hnd : valid.Nodup := (List.nodup_range _).filter _
  have hsub : ∀ x ∈ valid, x < chunkVecs.length := by
    intro x hx
    exact List.mem_range.mp (List.mem_of_mem_filter hx)
  have hvlen : valid.length ≤ chunkVecs.length := by
    have := List.length_filter_le
      (fun i => decide (np_percentile sims pct ≤ sims.getD i 0))
      (List.range chunkVecs.length)
    simpa [hvalid] using this
  by_cases hv : valid = []
  · rw [if_pos hv]
    refine ⟨by simp, by simp; omega, List.nodup_singleton _, ?_⟩
    intro x hx
    rw [List.mem_singleton.mp hx]
    have := argmaxList_lt hsimne
    rwa [hsimlen] at this
  · rw [if_neg hv]
    have hvpos : 0 < valid.length := List.length_pos.mpr hv
    obtain ⟨h1, h2, h3⟩ := rankWithin_spec valid sims b hnd
    refine ⟨by rw [h1]; omega, by rw [h1]; omega, h2,
      fun x hx => hsub x (h3 x hx)⟩

lemma foldl_set_length {α : Type} (g : List ℚ → α → ℕ) (h : List ℚ → α → ℚ) :
    ∀ (l : List α) (vs : List ℚ),
      (l.foldl (fun acc a => acc.set (g acc a) (h acc a)) vs).length = vs.length := by
  intro l
  induction l with
  | nil => intro vs; rfl
  | cons x xs ih =>
      intro vs
      rw [List.foldl_cons, ih]
      exact List.length_set ..

lemma ensembleVotes_length :
    ∀ (pairs : List (List ℕ × ℚ)) (vs : List ℚ),
      (pairs.foldl
        (fun vs sw =>
          sw.1.enum.foldl
            (fun vs' ri =>
              vs'.set ri.2 (vs'.getD ri.2 0 + sw.2 * ((sw.1.length : ℚ) - (ri.1 : ℚ))))
            vs)
        vs).length = vs.length := by
  intro pairs
  induction pairs with
  | nil => intro vs; rfl
  | cons sw rest ih =>
      intro vs
      rw [List.foldl_cons, ih]
      exact foldl_set_length (fun _ ri => ri.2)
        (fun vs' ri => vs'.getD ri.2 0 + sw.2 * ((sw.1.length : ℚ) - (ri.1 : ℚ)))
        sw.1.enum vs

lemma selectEnsemble_spec (w : Option (List ℚ)) (queryVec : List ℚ)
    (chunkVecs : List (List ℚ)) (b : ℕ) (rng : ℕ → ℚ) :
    (selectEnsemble w queryVec chunkVecs b rng).length = min b chunkVecs.length ∧
    (selectEnsemble w queryVec chunkVecs b rng).Nodup ∧
    (∀ x ∈ selectEnsemble w queryVec chunkVecs b rng, x < chunkVecs.length) := by
  unfold selectEnsemble
  cases w with
  | none =>
      set votes := (List.zip
          [subSelect .similarity queryVec chunkVecs (b * 2) rng,
           subSelect .mmr queryVec chunkVecs (b * 2) rng]
          [(1:ℚ)/2, 1/2]).foldl
        (fun vs sw =>
          sw.1.enum.foldl
            (fun vs' ri =>
              vs'.set ri.2 (vs'.getD ri.2 0 + sw.2 * ((sw.1.length : ℚ) - (ri.1 : ℚ))))
            vs)
        (List.replicate chunkVecs.length (0 : ℚ)) with hvotes
      have hvlen : votes.length = chunkVecs.length := by
        rw [hvotes, ensembleVotes_length, List.length_replicate]
      refine ⟨?_, topByScore_nodup _ b, ?_⟩
      · show (topByScore votes b).length = _
        rw [topByScore_length, hvlen]
      · intro x hx
        have := topByScore_mem hx
        rwa [hvlen] at this
  | some ws =>
      set votes := (List.zip
          [subSelect .similarity queryVec chunkVecs (b * 2) rng,
           subSelect .mmr queryVec chunkVecs (b * 2) rng,
           subSelect .uncertainty queryVec chunkVecs (b * 2) rng]
          ws).foldl
        (fun vs sw =>
          sw.1.enum.foldl
            (fun vs' ri =>
              vs'.set ri.2 (vs'.getD ri.2 0 + sw.2 * ((sw.1.length : ℚ) - (ri.1 : ℚ))))
            vs)
        (List.replicate chunkVecs.length (0 : ℚ)) with hvotes
      have hvlen : votes.length = chunkVecs.length := by
        rw [hvotes, ensembleVotes_length, List.length_replicate]
      refine ⟨?_, topByScore_nodup _ b, ?_⟩
      · show (topByScore votes b).length = _
        rw [topByScore_length, hvlen]
      · intro x hx
        have := topByScore_mem hx
        rwa [hvlen] at this

lemma select_eq_similarity (c : SelectionConfig) (h : c.strategy = .similarity)
    (queryVec : List ℚ) (chunkVecs : List (List ℚ)) (budget : ℕ) (rng : ℕ → ℚ)
    (hne : chunkVecs ≠ []) :
    AdvancedSensor.select c queryVec chunkVecs budget rng =
      selectSimilarity c.min_score queryVec chunkVecs (min budget chunkVecs.length) := by
  unfold AdvancedSensor.select dispatchNonEnsemble
  rw [if_neg hne, h]

lemma select_eq_mmr (c : SelectionConfig) (h : c.strategy = .mmr)
    (queryVec : List ℚ) (chunkVecs : List (List ℚ)) (budget : ℕ) (rng : ℕ → ℚ)
    (hne : chunkVecs ≠ []) :
    AdvancedSensor.select c queryVec chunkVecs budget rng =
      selectMMR c.diversity_lambda queryVec chunkVecs (min budget chunkVecs.length) := by
  unfold AdvancedSensor.select dispatchNonEnsemble
  rw [if_neg hne, h]

lemma select_eq_uncertainty (c : SelectionConfig) (h : c.strategy = .uncertainty)
    (queryVec : List ℚ) (chunkVecs : List (List ℚ)) (budget : ℕ) (rng : ℕ → ℚ)
    (hne : chunkVecs ≠ []) :
    AdvancedSensor.select c queryVec chunkVecs budget rng =
      selectUncertainty c.temperature queryVec chunkVecs
        (min budget chunkVecs.length) rng := by
  unfold AdvancedSensor.select dispatchNonEnsemble
  rw [if_neg hne, h]

lemma select_eq_ensemble (c : SelectionConfig) (h : c.strategy = .ensemble)
    (queryVec : List ℚ) (chunkVecs : List (List ℚ)) (budget : ℕ) (rng : ℕ → ℚ)
    (hne : chunkVecs ≠ []) :
    AdvancedSensor.select c queryVec chunkVecs budget rng =
      selectEnsemble c.ensemble_weights queryVec chunkVecs
        (min budget chunkVecs.length) rng := by
  unfold AdvancedSensor.select
  rw [if_neg hne, h]

lemma select_eq_adaptive (c : SelectionConfig) (h : c.strategy = .adaptive)
    (queryVec : List ℚ) (chunkVecs : List (List ℚ)) (budget : ℕ) (rng : ℕ → ℚ)
    (hne : chunkVecs ≠ []) :
    AdvancedSensor.select c queryVec chunkVecs budget rng =
      selectAdaptive c.adaptive_percentile queryVec chunkVecs
        (min budget chunkVecs.length) := by
  unfold AdvancedSensor.select dispatchNonEnsemble
  rw [if_neg hne, h]

/-- C1 (amended): for every non-empty candidate list, positive budget
and valid configuration, `AdvancedSensor.select` returns unique in-range
indices, never more than `min(budget, N)` of them; Similarity with
`minScore` unset, MMR, Uncertainty and Ensemble return exactly
`min(budget, N)`, while Adaptive returns at least one but possibly
fewer than `min(budget, N)` (the percentile threshold can filter the
pool below the budget — see the counterexample), and Similarity with
`minScore` set can return fewer as well. -/
theorem C1_selection_counts (c : SelectionConfig) (queryVec : List ℚ)
    (chunkVecs : List (List ℚ)) (budget : ℕ) (rng : ℕ → ℚ)
    (hne : chunkVecs ≠ []) (hb : 0 < budget) (hv : validConfig c)
    (hrng : ∀ k, 0 ≤ rng k ∧ rng k < 1) :
    (AdvancedSensor.select c queryVec chunkVecs budget rng).Nodup ∧
    (∀ i ∈ AdvancedSensor.select c queryVec chunkVecs budget rng,
      i < chunkVecs.length) ∧
    (AdvancedSensor.select c queryVec chunkVecs budget rng).length ≤
      min budget chunkVecs.length ∧
    (c.strategy = .adaptive →
      1 ≤ (AdvancedSensor.select c queryVec chunkVecs budget rng).length) ∧
    ((c.strategy ≠ .adaptive ∧ (c.strategy = .similarity → c.min_score = none)) →
      (AdvancedSensor.select c queryVec chunkVecs budget rng).length =
        min budget chunkVecs.length) := by
  have hN : 0 < chunkVecs.length := List.length_pos.mpr hne
  have hbmin : 0 < min budget chunkVecs.length := lt_min hb hN
  cases hstrat : c.strategy with
  | similarity =>
      rw [select_eq_similarity c hstrat queryVec chunkVecs budget rng hne]
      cases hmin : c.min_score with
      | none =>
          obtain ⟨h1, h2, h3⟩ := selectSimilarity_none_spec queryVec chunkVecs
            (min budget chunkVecs.length)
          refine ⟨h2, h3, ?_, ?_, ?_⟩
          · rw [h1]; omega
          · intro h; exact absurd h (by decide)
          · intro _; rw [h1]; omega
      | some m =>
          obtain ⟨h1, h2, h3⟩ := selectSimilarity_some_spec m queryVec chunkVecs
            (min budget chunkVecs.length)
          refine ⟨h2, h3, ?_, ?_, ?_⟩
          · omega
          · intro h; exact absurd h (by decide)
          · rintro ⟨-, himp⟩
            exact absurd (himp rfl) (by simp)
  | mmr =>
      rw [select_eq_mmr c hstrat queryVec chunkVecs budget rng hne]
      unfold selectMMR
      have h1 := mmrGo_length (computeSimilarities queryVec chunkVecs)
        (fun i j => dot (chunkVecs.getD i []) (chunkVecs.getD j []))
        c.diversity_lambda (min budget chunkVecs.length) []
        (List.range chunkVecs.length)
      rw [List.length_range] at h1
      refine ⟨mmrGo_nodup _ _ _ _ _ _ (List.nodup_range _), ?_, ?_, ?_, ?_⟩
      · intro i hi
        exact List.mem_range.mp (mmrGo_subset _ _ _ _ _ _ i hi)
      · rw [h1]; omega
      · intro h; exact absurd h (by decide)
      · intro _; rw [h1]; omega
  | uncertainty =>
      rw [select_eq_uncertainty c hstrat queryVec chunkVecs budget rng hne]
      obtain ⟨h1, h2, h3⟩ := selectUncertainty_spec c.temperature queryVec chunkVecs
        (min budget chunkVecs.length) rng (min_le_right _ _) hrng
      refine ⟨h2, h3, ?_, ?_, ?_⟩
      · exact le_of_eq h1
      · intro h; exact absurd h (by decide)
      · intro _; exact h1
  | ensemble =>
      rw [select_eq_ensemble c hstrat queryVec chunkVecs budget rng hne]
      obtain ⟨h1, h2, h3⟩ := selectEnsemble_spec c.ensemble_weights queryVec chunkVecs
        (min budget chunkVecs.length) rng
      refine ⟨h2, h3, ?_, ?_, ?_⟩
      · rw [h1]; omega
      · intro h; exact absurd h (by decide)
      · intro _; rw [h1]; omega
  | adaptive =>
      rw [select_eq_adaptive c hstrat queryVec chunkVecs budget rng hne]
      obtain ⟨h1, h2, h3, h4⟩ := selectAdaptive_spec c.adaptive_percentile queryVec
        chunkVecs (min budget chunkVecs.length) hne hbmin
      refine ⟨h3, h4, ?_, ?_, ?_⟩
      · omega
      · intro _; exact h1
      · rintro ⟨habs, -⟩
        exact absurd rfl habs

/-- Witness for C1 at the default (Similarity, `minScore` unset) config
on one candidate with budget 1. -/
theorem C1_selection_counts_witness :
    (([[1]] : List (List ℚ)) ≠ [] ∧ (0 : ℕ) < 1 ∧ validConfig {} ∧
      (∀ k : ℕ, 0 ≤ (fun _ : ℕ => (0 : ℚ)) k ∧ (fun _ : ℕ => (0 : ℚ)) k < 1)) ∧
    ((AdvancedSensor.select {} [1] [[1]] 1 (fun _ => 0)).Nodup ∧
      (∀ i ∈ AdvancedSensor.select {} [1] [[1]] 1 (fun _ => 0), i < 1) ∧
      (AdvancedSensor.select {} [1] [[1]] 1 (fun _ => 0)).length ≤ min 1 1 ∧
      (SelectionConfig.strategy {} = .adaptive →
        1 ≤ (AdvancedSensor.select {} [1] [[1]] 1 (fun _ => 0)).length) ∧
      ((SelectionConfig.strategy {} ≠ .adaptive ∧
          (SelectionConfig.strategy {} = .similarity →
            SelectionConfig.min_score {} = none)) →
        (AdvancedSensor.select {} [1] [[1]] 1 (fun _ => 0)).length = min 1 1)) := by
  have hne : ([[1]] : List (List ℚ)) ≠ [] := by simp
  have hv : validConfig {} := by
    refine ⟨by norm_num, by norm_num, by norm_num, by norm_num, by norm_num⟩
  have hrng : ∀ k : ℕ, 0 ≤ (fun _ : ℕ => (0 : ℚ)) k ∧ (fun _ : ℕ => (0 : ℚ)) k < 1 :=
    fun _ => by constructor <;> norm_num
  have h := C1_selection_counts {} [1] [[1]] 1 (fun _ => 0) hne (by decide) hv hrng
  exact ⟨⟨hne, by decide, hv, hrng⟩, h⟩

/-- Counterexample for C1 as frozen: the Adaptive strategy under its
default (valid) configuration — `adaptive_percentile = 0.75` — on four
candidates with scores 0,1,2,3 and budget 3 returns only `[3]` (the
75th-percentile threshold 2.25 filters out all but one candidate), not
`min(budget, N) = 3` indices. -/
theorem C1_counterexample :
    validConfig { strategy := .adaptive } ∧
    ([[0], [1], [2], [3]] : List (List ℚ)) ≠ [] ∧ (0 : ℕ) < 3 ∧
    AdvancedSensor.select { strategy := .adaptive } [1] [[0], [1], [2], [3]] 3
      (fun _ => 0) = [3] ∧
    (AdvancedSensor.select { strategy := .adaptive } [1] [[0], [1], [2], [3]] 3
      (fun _ => 0)).length ≠ min 3 4 := by
  have hsel : AdvancedSensor.select { strategy := .adaptive } [1] [[0], [1], [2], [3]] 3
      (fun _ => 0) = selectAdaptive (3/4) [1] [[0], [1], [2], [3]] 3 := rfl
  have hval : selectAdaptive (3/4) [1] [[0], [1], [2], [3]] 3 = [3] := by
    norm_num [selectAdaptive, np_percentile, computeSimilarities, dot, rankWithin,
      topByScore, np_argsort, argsortLe, List.insertionSort, List.orderedInsert,
      List.filter, argmaxList, Int.toNat, listMaxQ]
  refine ⟨⟨by norm_num, by norm_num, by norm_num, by norm_num, by norm_num⟩,
    by simp, by decide, ?_, ?_⟩
  · rw [hsel, hval]
  · rw [hsel, hval]
    decide

end DspyRefrag
